import Mathlib

/-!
Verification of the hash command family of the traitor in-memory store
(src/src/db/database/hash.go) against its natural-language specification.

The Go file is embedded shallowly: byte strings become `String`, the mutable
keyspace becomes an association list threaded explicitly through each
executor, and the `addAof` durability hook becomes a list of emitted command
lines returned by the executor.  The `dict.Dict` container, the `DB` entity
store and the `rollbackHashFields` undo helper are referenced by hash.go but
are not among the provided sources; they are modelled from the specification
contract (sections 4.1, 4.2 and 4.4) and marked as such below.
-/

/-- A value stored in a hash field (a Go byte slice, modelled as a string). -/
abbrev Value := String

/-- One command invocation: command name followed by its arguments. -/
abbrev CmdLine := List String

/-- The hash container payload: an association list from field name to value.
Modelled from the spec: section 4.1 describes the container as a field-to-value
mapping with point get/put/remove, length, iteration and random sampling; the
concrete `dict.SimpleDict` implementation is not among the provided sources. -/
abbrev HDict := List (String × Value)

/-- A stored entity: a hash container or an entity of some other kind.
Mirrors `database.DataEntity`, whose payload is downcast by `getAsDict`;
kinds other than hash are opaque to the hash command family. -/
inductive Entity where
  | hash (d : HDict)
  | other (tag : String)
deriving DecidableEq

/-- The keyspace: an association list from key name to entity.
Modelled from the spec: section 4.2 (get/put/remove entity); the concrete
`DB` store is not among the provided sources. -/
abbrev DBState := List (String × Entity)

/-- Reply values produced by executors, one constructor per Go reply type
used in hash.go. -/
inductive Reply where
  | int (n : Int)
  | bulk (v : Value)
  | nullBulk
  | multiBulk (vs : List (Option Value))
  | emptyMultiBulk
  | ok
  | err (msg : String)
  | wrongTypeErr
  | synErr
deriving DecidableEq

/-- Whether a reply is one of the typed error replies. -/
def isError : Reply → Bool
  | .err _ => true
  | .wrongTypeErr => true
  | .synErr => true
  | _ => false

/-- The outcome of running one executor: its reply, the keyspace after the
call, and the command lines it handed to the durability sink (`addAof`). -/
structure ExecResult where
  reply : Reply
  state : DBState
  aof : List CmdLine
deriving DecidableEq

/-- Mirrors `utils.ToCmdLine3(name, args...)`: the command name followed by
the raw arguments. -/
def toCmdLine3 (name : String) (args : List String) : CmdLine :=
  name :: args

/-- Modelled from the spec: container `get(field) -> value | absent`. -/
def hLookup (d : HDict) (f : String) : Option Value :=
  match d with
  | [] => none
  | (g, v) :: t => if g = f then some v else hLookup t f

/-- Modelled from the spec: container `put(field, value) -> 1 if field newly
created else 0` (overwrite allowed).  Returns the updated container and the
created-count. -/
def hPut (d : HDict) (f v : String) : HDict × Nat :=
  match hLookup d f with
  | some _ => (d.map fun p => if p.1 = f then (f, v) else p, 0)
  | none => (d ++ [(f, v)], 1)

/-- Modelled from the spec: container `put_if_absent(field, value) -> 1 if
created else 0` (no-op if present). -/
def hPutIfAbsent (d : HDict) (f v : String) : HDict × Nat :=
  match hLookup d f with
  | some _ => (d, 0)
  | none => (d ++ [(f, v)], 1)

/-- Modelled from the spec: container `remove(field) -> 1 if removed else 0`. -/
def hRemove (d : HDict) (f : String) : HDict × Nat :=
  (d.filter fun p => decide (p.1 ≠ f),
   match hLookup d f with
   | some _ => 1
   | none => 0)

/-- Modelled from the spec: container `len() -> count of fields`. -/
def hLen (d : HDict) : Nat := d.length

/-- The field names of a container, in iteration order. -/
def hKeys (d : HDict) : List String := d.map Prod.fst

/-- Modelled from the spec: keyspace `get_entity(key) -> Entity | absent`. -/
def getEntity (s : DBState) (k : String) : Option Entity :=
  match s with
  | [] => none
  | (k', e) :: t => if k' = k then some e else getEntity t k

/-- Modelled from the spec: keyspace `put_entity(key, entity)`, an
unconditional upsert. -/
def putEntity (s : DBState) (k : String) (e : Entity) : DBState :=
  match getEntity s k with
  | some _ => s.map fun p => if p.1 = k then (k, e) else p
  | none => s ++ [(k, e)]

/-- Modelled from the spec: keyspace `remove(key)`; no-op if absent. -/
def removeKey (s : DBState) (k : String) : DBState :=
  s.filter fun p => decide (p.1 ≠ k)

/-- Result of `db.getAsDict`: wrong-typed entity, absent key, or the hash
container found at the key. -/
inductive DictRes where
  | wrongType
  | absent
  | found (d : HDict)
deriving DecidableEq

/-- `(db *DB) getAsDict(key)` from hash.go: fetch the entity and downcast it
to a hash container; an entity of any other kind is a WrongType condition. -/
def getAsDict (s : DBState) (k : String) : DictRes :=
  match getEntity s k with
  | none => .absent
  | some (.hash d) => .found d
  | some (.other _) => .wrongType

/-- `(db *DB) getOrInitDict(key)` from hash.go: like `getAsDict` but stores a
fresh empty container when the key is absent.  `none` signals WrongType;
otherwise the container, the init flag and the updated keyspace. -/
def getOrInitDict (s : DBState) (k : String) : Option (HDict × Bool × DBState) :=
  match getAsDict s k with
  | .wrongType => none
  | .absent => some ([], true, putEntity s k (.hash []))
  | .found d => some (d, false, s)

/-- Placeholder for argument shapes on which the Go code would panic by
indexing past the end of `args`; dispatch-time arity validation makes these
shapes unreachable. -/
def goPanic (s : DBState) : ExecResult :=
  ⟨.err "GO PANIC", s, []⟩

/-- Go `strconv.ParseInt(s, 10, 64)`: optional sign, decimal digits, value
within the signed 64-bit range; `none` on any parse or range error. -/
def goParseInt (s : String) : Option Int :=
  let cs := s.data
  let p : Bool × List Char :=
    match cs with
    | '-' :: r => (true, r)
    | '+' :: r => (false, r)
    | r => (false, r)
  if p.2.isEmpty then none
  else if p.2.all Char.isDigit then
    let n : Nat := p.2.foldl (fun a c => a * 10 + (c.toNat - 48)) 0
    let v : Int := if p.1 then -(n : Int) else (n : Int)
    if -(2 ^ 63) ≤ v ∧ v ≤ 2 ^ 63 - 1 then some v else none
  else none

/-- Go `strconv.FormatInt(v, 10)`. -/
def goFormatInt (v : Int) : String := toString v

/-- Signed 64-bit wrap-around, the behaviour of Go `int64` addition. -/
def wrap64 (x : Int) : Int :=
  (x + 2 ^ 63) % 2 ^ 64 - 2 ^ 63

/-- An exact decimal number: `val / 10 ^ exp`.  Models the external
`shopspring/decimal` representation as far as hash.go exercises it. -/
structure Dec where
  val : Int
  exp : Nat
deriving DecidableEq

/-- Digits of a nonempty all-digit character list, else `none`. -/
def decDigits (cs : List Char) : Option Nat :=
  if cs.isEmpty then none
  else if cs.all Char.isDigit then
    some (cs.foldl (fun a c => a * 10 + (c.toNat - 48)) 0)
  else none

/-- Models `decimal.NewFromString`: optional sign, integer digits and an
optional fractional part, parsed exactly. -/
def parseDec (s : String) : Option Dec :=
  let cs := s.data
  let p : Bool × List Char :=
    match cs with
    | '-' :: r => (true, r)
    | '+' :: r => (false, r)
    | r => (false, r)
  let sp := p.2.span fun c => decide (c ≠ '.')
  match sp.2 with
  | [] => (decDigits sp.1).map fun n =>
      ⟨cond p.1 (-(n : Int)) (n : Int), 0⟩
  | _ :: fp =>
    match decDigits sp.1, decDigits fp with
    | some a, some b =>
      let m : Nat := a * 10 ^ fp.length + b
      some ⟨cond p.1 (-(m : Int)) (m : Int), fp.length⟩
    | _, _ => none

/-- Models `decimal.Decimal.Add`: align exponents and add. -/
def decAdd (x y : Dec) : Dec :=
  let e := max x.exp y.exp
  ⟨x.val * 10 ^ (e - x.exp) + y.val * 10 ^ (e - y.exp), e⟩

/-- Models `decimal.Decimal.String`: render the exact decimal. -/
def decToString (d : Dec) : String :=
  if d.exp = 0 then toString d.val
  else
    let ds := (toString d.val.natAbs).data
    let ds := if ds.length ≤ d.exp then List.replicate (d.exp + 1 - ds.length) '0' ++ ds else ds
    let ip := ds.take (ds.length - d.exp)
    let fp := ds.drop (ds.length - d.exp)
    (if d.val < 0 then "-" else "") ++ String.mk ip ++ "." ++ String.mk fp

/-- `execHSet` from hash.go. -/
def execHSet (s : DBState) (args : List String) : ExecResult :=
  match args with
  | key :: field :: value :: _ =>
    match getOrInitDict s key with
    | none => ⟨.wrongTypeErr, s, []⟩
    | some (d, _, s₁) =>
      let r := hPut d field value
      ⟨.int (r.2 : Int), putEntity s₁ key (.hash r.1), [toCmdLine3 "hset" args]⟩
  | _ => goPanic s

/-- `execHSetNX` from hash.go: sets the field only if it does not exist;
records to the durability sink only when the field was created. -/
def execHSetNX (s : DBState) (args : List String) : ExecResult :=
  match args with
  | key :: field :: value :: _ =>
    match getOrInitDict s key with
    | none => ⟨.wrongTypeErr, s, []⟩
    | some (d, _, s₁) =>
      let r := hPutIfAbsent d field value
      let s₂ := putEntity s₁ key (.hash r.1)
      if r.2 > 0 then ⟨.int (r.2 : Int), s₂, [toCmdLine3 "hsetnx" args]⟩
      else ⟨.int (r.2 : Int), s₂, []⟩
  | _ => goPanic s

/-- `execHGet` from hash.go. -/
def execHGet (s : DBState) (args : List String) : ExecResult :=
  match args with
  | key :: field :: _ =>
    match getAsDict s key with
    | .wrongType => ⟨.wrongTypeErr, s, []⟩
    | .absent => ⟨.nullBulk, s, []⟩
    | .found d =>
      match hLookup d field with
      | none => ⟨.nullBulk, s, []⟩
      | some v => ⟨.bulk v, s, []⟩
  | _ => goPanic s

/-- `execHExists` from hash.go. -/
def execHExists (s : DBState) (args : List String) : ExecResult :=
  match args with
  | key :: field :: _ =>
    match getAsDict s key with
    | .wrongType => ⟨.wrongTypeErr, s, []⟩
    | .absent => ⟨.int 0, s, []⟩
    | .found d =>
      match hLookup d field with
      | some _ => ⟨.int 1, s, []⟩
      | none => ⟨.int 0, s, []⟩
  | _ => goPanic s

/-- Remove each named field in order, accumulating the removed-count;
the loop body of `execHDel`. -/
def removeAll (d : HDict) (fields : List String) : HDict × Nat :=
  fields.foldl (fun acc f =>
    let r := hRemove acc.1 f
    (r.1, acc.2 + r.2)) (d, 0)

/-- `execHDel` from hash.go: removes the named fields, deletes the key when
the container becomes empty, and records to the sink only when at least one
field was removed. -/
def execHDel (s : DBState) (args : List String) : ExecResult :=
  match args with
  | key :: fieldArgs =>
    match getAsDict s key with
    | .wrongType => ⟨.wrongTypeErr, s, []⟩
    | .absent => ⟨.int 0, s, []⟩
    | .found d =>
      let r := removeAll d fieldArgs
      let s₂ := if hLen r.1 = 0 then removeKey s key else putEntity s key (.hash r.1)
      if r.2 > 0 then ⟨.int (r.2 : Int), s₂, [toCmdLine3 "hdel" args]⟩
      else ⟨.int (r.2 : Int), s₂, []⟩
  | _ => goPanic s

/-- `execHLen` from hash.go. -/
def execHLen (s : DBState) (args : List String) : ExecResult :=
  match args with
  | key :: _ =>
    match getAsDict s key with
    | .wrongType => ⟨.wrongTypeErr, s, []⟩
    | .absent => ⟨.int 0, s, []⟩
    | .found d => ⟨.int (hLen d : Int), s, []⟩
  | _ => goPanic s

/-- `execHStrLen` from hash.go. -/
def execHStrLen (s : DBState) (args : List String) : ExecResult :=
  match args with
  | key :: field :: _ =>
    match getAsDict s key with
    | .wrongType => ⟨.wrongTypeErr, s, []⟩
    | .absent => ⟨.int 0, s, []⟩
    | .found d =>
      match hLookup d field with
      | some v => ⟨.int (v.length : Int), s, []⟩
      | none => ⟨.int 0, s, []⟩
  | _ => goPanic s

/-- Successive field-value pairs of an argument tail, mirroring the index
arithmetic `fields[i] = args[2i+1]; values[i] = args[2i+2]` of `execHMSet`
and `undoHMSet`. -/
def toPairs : List String → List (String × String)
  | f :: v :: t => (f, v) :: toPairs t
  | _ => []

/-- `execHMSet` from hash.go: syntax-checks the argument parity, then puts
every named pair. -/
def execHMSet (s : DBState) (args : List String) : ExecResult :=
  match args with
  | key :: rest =>
    if (1 + rest.length) % 2 ≠ 1 then ⟨.synErr, s, []⟩
    else
      match getOrInitDict s key with
      | none => ⟨.wrongTypeErr, s, []⟩
      | some (d, _, s₁) =>
        let d₂ := (toPairs rest).foldl (fun acc p => (hPut acc p.1 p.2).1) d
        ⟨.ok, putEntity s₁ key (.hash d₂), [toCmdLine3 "hmset" args]⟩
  | _ => goPanic s

/-- `execHMGet` from hash.go. -/
def execHMGet (s : DBState) (args : List String) : ExecResult :=
  match args with
  | key :: rest =>
    match getAsDict s key with
    | .wrongType => ⟨.wrongTypeErr, s, []⟩
    | .absent => ⟨.multiBulk (rest.map fun _ => none), s, []⟩
    | .found d => ⟨.multiBulk (rest.map fun f => hLookup d f), s, []⟩
  | _ => goPanic s

/-- `execHKeys` from hash.go. -/
def execHKeys (s : DBState) (args : List String) : ExecResult :=
  match args with
  | key :: _ =>
    match getAsDict s key with
    | .wrongType => ⟨.wrongTypeErr, s, []⟩
    | .absent => ⟨.emptyMultiBulk, s, []⟩
    | .found d => ⟨.multiBulk ((hKeys d).map some), s, []⟩
  | _ => goPanic s

/-- `execHVals` from hash.go. -/
def execHVals (s : DBState) (args : List String) : ExecResult :=
  match args with
  | key :: _ =>
    match getAsDict s key with
    | .wrongType => ⟨.wrongTypeErr, s, []⟩
    | .absent => ⟨.emptyMultiBulk, s, []⟩
    | .found d => ⟨.multiBulk (d.map fun p => some p.2), s, []⟩
  | _ => goPanic s

/-- `execHGetAll` from hash.go. -/
def execHGetAll (s : DBState) (args : List String) : ExecResult :=
  match args with
  | key :: _ =>
    match getAsDict s key with
    | .wrongType => ⟨.wrongTypeErr, s, []⟩
    | .absent => ⟨.emptyMultiBulk, s, []⟩
    | .found d => ⟨.multiBulk (d.flatMap fun p => [some p.1, some p.2]), s, []⟩
  | _ => goPanic s

/-- Error message of `execHIncrBy` for a malformed delta argument. -/
def notIntMsg : String := "ERR value is not an integer or out of range"

/-- Error message of `execHIncrBy` for a non-integer stored value. -/
def hashNotIntMsg : String := "ERR hash value is not an integer"

/-- Error message of `execHIncrByFloat` for a malformed delta argument. -/
def notFloatMsg : String := "ERR value is not a valid float"

/-- Error message of `execHIncrByFloat` for a non-numeric stored value. -/
def hashNotFloatMsg : String := "ERR hash value is not a float"

/-- `execHIncrBy` from hash.go: parse the delta, then create the field with
the raw delta if absent, else add with 64-bit wrap-around. -/
def execHIncrBy (s : DBState) (args : List String) : ExecResult :=
  match args with
  | key :: field :: rawDelta :: _ =>
    match goParseInt rawDelta with
    | none => ⟨.err notIntMsg, s, []⟩
    | some delta =>
      match getOrInitDict s key with
      | none => ⟨.wrongTypeErr, s, []⟩
      | some (d, _, s₁) =>
        match hLookup d field with
        | none =>
          ⟨.bulk rawDelta, putEntity s₁ key (.hash (hPut d field rawDelta).1),
           [toCmdLine3 "hincrby" args]⟩
        | some value =>
          match goParseInt value with
          | none => ⟨.err hashNotIntMsg, s₁, []⟩
          | some val =>
            let bytes := goFormatInt (wrap64 (val + delta))
            ⟨.bulk bytes, putEntity s₁ key (.hash (hPut d field bytes).1),
             [toCmdLine3 "hincrby" args]⟩
  | _ => goPanic s

/-- `execHIncrByFloat` from hash.go.  Note the absent-field branch returns a
success reply without handing anything to the durability sink, exactly as in
the source. -/
def execHIncrByFloat (s : DBState) (args : List String) : ExecResult :=
  match args with
  | key :: field :: rawDelta :: _ =>
    match parseDec rawDelta with
    | none => ⟨.err notFloatMsg, s, []⟩
    | some delta =>
      match getOrInitDict s key with
      | none => ⟨.wrongTypeErr, s, []⟩
      | some (d, _, s₁) =>
        match hLookup d field with
        | none =>
          ⟨.bulk rawDelta, putEntity s₁ key (.hash (hPut d field rawDelta).1), []⟩
        | some value =>
          match parseDec value with
          | none => ⟨.err hashNotFloatMsg, s₁, []⟩
          | some val =>
            let bytes := decToString (decAdd val delta)
            ⟨.bulk bytes, putEntity s₁ key (.hash (hPut d field bytes).1),
             [toCmdLine3 "hincrbyfloat" args]⟩
  | _ => goPanic s

/-- Go `strings.ToLower`, as hash.go uses it: on the ASCII command tokens it
compares, this is per-character lowercasing. -/
def goToLower (s : String) : String :=
  String.mk (s.data.map Char.toLower)

/-- Error message of `execHRandField` for too many arguments. -/
def wrongNumHRandMsg : String :=
  "ERR wrong number of arguments for \x27hrandfield\x27 command"

/-- Modelled from the spec: `random_distinct_keys(n)` returns up to `n`
unique field names (`min(n, m)` on a container of size `m`); the concrete
`dict` sampling code is not among the provided sources.  The random choice is
abstracted as an oracle selecting, at each step, an index into the keys not
yet taken. -/
def pickDistinct (choice : Nat → Nat) : Nat → List String → List String
  | 0, _ => []
  | _ + 1, [] => []
  | n + 1, k :: ks =>
    (k :: ks).get ⟨choice (n + 1) % (k :: ks).length, Nat.mod_lt _ (Nat.succ_pos ks.length)⟩ ::
      pickDistinct choice n ((k :: ks).eraseIdx (choice (n + 1) % (k :: ks).length))

/-- Modelled from the spec: `random_distinct_keys` over a container's keys. -/
def randomDistinctKeys (choice : Nat → Nat) (ks : List String) (n : Nat) : List String :=
  pickDistinct choice n ks

/-- Modelled from the spec: `random_keys_with_replacement(n)` returns exactly
`n` field names, duplicates allowed, and none when the container is empty;
the random choice is abstracted as an index oracle. -/
def randomKeys (choice : Nat → Nat) (ks : List String) (n : Nat) : List String :=
  match ks with
  | [] => []
  | k :: t =>
    (List.range n).map fun j =>
      (k :: t).get ⟨choice j % (t.length + 1), Nat.mod_lt _ (Nat.succ_pos t.length)⟩

/-- Field names interleaved with their values, the WITHVALUES output shape of
`execHRandField`. -/
def withValuesOut (d : HDict) (fields : List String) : List (Option Value) :=
  fields.flatMap fun f => [some f, some ((hLookup d f).getD "")]

/-- `execHRandField` from hash.go: argument-count check, WITHVALUES syntax
check, count parse, then distinct sampling for positive counts and sampling
with replacement for negative counts. -/
def execHRandField (choice : Nat → Nat) (s : DBState) (args : List String) : ExecResult :=
  match args with
  | [] => goPanic s
  | key :: rest =>
    if 1 + rest.length > 3 then ⟨.err wrongNumHRandMsg, s, []⟩
    else
      let wv : Option Nat :=
        if 1 + rest.length = 3 then
          if goToLower (rest.getD 1 "") = "withvalues" then some 1 else none
        else some 0
      match wv with
      | none => ⟨.synErr, s, []⟩
      | some withvalues =>
        let cnt : Option Int :=
          if 1 + rest.length ≥ 2 then goParseInt (rest.getD 0 "") else some 1
        match cnt with
        | none => ⟨.err notIntMsg, s, []⟩
        | some count =>
          match getAsDict s key with
          | .wrongType => ⟨.wrongTypeErr, s, []⟩
          | .absent => ⟨.emptyMultiBulk, s, []⟩
          | .found d =>
            if 0 < count then
              let fields := randomDistinctKeys choice (hKeys d) count.toNat
              if withvalues = 0 then ⟨.multiBulk (fields.map some), s, []⟩
              else ⟨.multiBulk (withValuesOut d fields), s, []⟩
            else if count < 0 then
              let fields := randomKeys choice (hKeys d) (-count).toNat
              if withvalues = 0 then ⟨.multiBulk (fields.map some), s, []⟩
              else ⟨.multiBulk (withValuesOut d fields), s, []⟩
            else ⟨.emptyMultiBulk, s, []⟩

/-- The value stored at field `f` of the hash at key `k`, `none` when the
key is absent, holds a non-hash entity, or lacks the field. -/
def fieldValue (s : DBState) (k f : String) : Option Value :=
  match getEntity s k with
  | some (.hash d) => hLookup d f
  | _ => none

/-- Whether key `k` is absent or holds a hash entity (the states on which a
hash write can proceed). -/
def hashOrAbsent (s : DBState) (k : String) : Bool :=
  match getEntity s k with
  | some (.other _) => false
  | _ => true

/-- Modelled from the spec: `rollbackHashFields` (referenced from the undo
generators of hash.go but not among the provided sources).  Per section 4.4,
undo generation snapshots every named field from the current state before the
executor runs: a present field yields a command restoring its value, an
absent field yields a command removing it; on a wrong-typed key no undo is
produced, since the executor will fail without mutating. -/
def rollbackHashFields (s : DBState) (key : String) (fields : List String) : List CmdLine :=
  match getAsDict s key with
  | .wrongType => []
  | .absent => fields.map fun f => ["hdel", key, f]
  | .found d => fields.map fun f =>
      match hLookup d f with
      | some v => ["hset", key, f, v]
      | none => ["hdel", key, f]

/-- `undoHSet` from hash.go: snapshot the single named field. -/
def undoHSet (s : DBState) (args : List String) : List CmdLine :=
  match args with
  | key :: field :: _ => rollbackHashFields s key [field]
  | _ => []

/-- `undoHDel` from hash.go: snapshot every named field. -/
def undoHDel (s : DBState) (args : List String) : List CmdLine :=
  match args with
  | key :: fieldArgs => rollbackHashFields s key fieldArgs
  | _ => []

/-- `undoHMSet` from hash.go: snapshot the field of every named pair. -/
def undoHMSet (s : DBState) (args : List String) : List CmdLine :=
  match args with
  | key :: rest => rollbackHashFields s key ((toPairs rest).map Prod.fst)
  | _ => []

/-- `undoHIncr` from hash.go: snapshot the single named field. -/
def undoHIncr (s : DBState) (args : List String) : List CmdLine :=
  match args with
  | key :: field :: _ => rollbackHashFields s key [field]
  | _ => []

/-- Apply one undo command line to the keyspace (undo entries are hset or
hdel command lines; anything else is ignored). -/
def replayCmd (t : DBState) (c : CmdLine) : DBState :=
  match c with
  | "hset" :: rest => (execHSet t rest).state
  | "hdel" :: rest => (execHDel t rest).state
  | _ => t

/-- Replay a list of undo command lines in reverse insertion order, as the
spec's abort path prescribes. -/
def replayAll (cs : List CmdLine) (t : DBState) : DBState :=
  cs.foldr (fun c acc => replayCmd acc c) t

/-- The canonical undo entry for one field: restore its snapshot value, or
remove it when it was absent. -/
def rollEntry (s : DBState) (k g : String) : CmdLine :=
  match fieldValue s k g with
  | some v => ["hset", k, g, v]
  | none => ["hdel", k, g]

/-- The hash command family, one constructor per `RegisterCommand` call in
the `init` block of hash.go. -/
inductive HCmd where
  | hset | hsetnx | hget | hexists | hdel | hlen | hstrlen | hmset
  | hmget | hkeys | hvals | hgetall | hincrby | hincrbyfloat | hrandfield
deriving DecidableEq

/-- The access-mode flag of each registration: `flagWrite` or `flagReadOnly`. -/
def isWrite : HCmd → Bool
  | .hset => true
  | .hsetnx => true
  | .hdel => true
  | .hmset => true
  | .hincrby => true
  | .hincrbyfloat => true
  | _ => false

/-- The registered arity of each command.  `HGet` is registered twice (3 and
then -3); per the registry contract the later registration wins. -/
def cmdArity : HCmd → Int
  | .hset => 4
  | .hsetnx => 4
  | .hget => -3
  | .hexists => 3
  | .hdel => -3
  | .hlen => 2
  | .hstrlen => 3
  | .hmset => -4
  | .hmget => -3
  | .hkeys => 2
  | .hvals => 2
  | .hgetall => 2
  | .hincrby => 4
  | .hincrbyfloat => 4
  | .hrandfield => -2

/-- Dispatch-time arity validation: a nonnegative arity is an exact count of
the full command line (name included); a negative arity `-n` means at least
`n`. -/
def arityCheck (arity : Int) (n : Nat) : Bool :=
  if 0 ≤ arity then decide ((n : Int) = arity) else decide (arity.natAbs ≤ n)

/-- Run one hash command's executor on the keyspace.  `choice` is the random
oracle consumed by `execHRandField`; the other executors ignore it. -/
def runCmd (c : HCmd) (choice : Nat → Nat) (s : DBState) (args : List String) : ExecResult :=
  match c with
  | .hset => execHSet s args
  | .hsetnx => execHSetNX s args
  | .hget => execHGet s args
  | .hexists => execHExists s args
  | .hdel => execHDel s args
  | .hlen => execHLen s args
  | .hstrlen => execHStrLen s args
  | .hmset => execHMSet s args
  | .hmget => execHMGet s args
  | .hkeys => execHKeys s args
  | .hvals => execHVals s args
  | .hgetall => execHGetAll s args
  | .hincrby => execHIncrBy s args
  | .hincrbyfloat => execHIncrByFloat s args
  | .hrandfield => execHRandField choice s args

/-- The durability discipline a single execution observes: nothing is handed
to the sink, or exactly one command line is, and then only from a write
command whose reply is not an error. -/
def aofDiscipline (wr : Bool) (r : ExecResult) : Bool :=
  match r.aof with
  | [] => true
  | [_] => wr && !(isError r.reply)
  | _ => false

/-- No key of the keyspace holds an empty hash container. -/
def noEmptyHash (s : DBState) : Bool :=
  s.all fun p =>
    match p.2 with
    | .hash d => !d.isEmpty
    | .other _ => true


theorem getEntity_eq_none_iff (s : DBState) (k : String) :
    getEntity s k = none ↔ ∀ p ∈ s, p.1 ≠ k := by
  induction s with
  | nil => simp [getEntity]
  | cons p t ih =>
    obtain ⟨k', e'⟩ := p
    by_cases hk : k' = k
    · subst hk; simp [getEntity]
    · simp [getEntity, hk, ih]

theorem getEntity_map_replace (s : DBState) (k : String) (e : Entity)
    (h : (getEntity s k).isSome) :
    getEntity (s.map fun p => if p.1 = k then (k, e) else p) k = some e := by
  induction s with
  | nil => simp [getEntity] at h
  | cons p t ih =>
    obtain ⟨k', e'⟩ := p
    by_cases hk : k' = k
    · subst hk
      simp only [List.map_cons, if_pos (show (k', e').1 = k' from rfl)]
      simp [getEntity]
    · have h' : (getEntity t k).isSome := by simpa [getEntity, hk] using h
      simp only [List.map_cons, if_neg (show ¬(k', e').1 = k from hk)]
      simpa [getEntity, hk] using ih h'

theorem getEntity_append_single (s : DBState) (k : String) (e : Entity)
    (h : getEntity s k = none) :
    getEntity (s ++ [(k, e)]) k = some e := by
  induction s with
  | nil => simp [getEntity]
  | cons p t ih =>
    obtain ⟨k', e'⟩ := p
    by_cases hk : k' = k
    · subst hk; simp [getEntity] at h
    · have h' : getEntity t k = none := by simpa [getEntity, hk] using h
      simpa [getEntity, hk] using ih h'

theorem getEntity_putEntity_self (s : DBState) (k : String) (e : Entity) :
    getEntity (putEntity s k e) k = some e := by
  unfold putEntity
  cases h : getEntity s k with
  | some e₀ => exact getEntity_map_replace s k e (by simp [h])
  | none => exact getEntity_append_single s k e h

theorem getEntity_removeKey_self (s : DBState) (k : String) :
    getEntity (removeKey s k) k = none := by
  induction s with
  | nil => simp [removeKey, getEntity]
  | cons p t ih =>
    obtain ⟨k', e'⟩ := p
    by_cases hk : k' = k
    · subst hk; simpa [removeKey, getEntity] using ih
    · simpa [removeKey, getEntity, hk] using ih

theorem putEntity_putEntity (s : DBState) (k : String) (e e' : Entity) :
    putEntity (putEntity s k e) k e' = putEntity s k e' := by
  cases h : getEntity s k with
  | none =>
    have hall : ∀ p ∈ s, p.1 ≠ k := (getEntity_eq_none_iff s k).mp h
    have h1 : putEntity s k e = s ++ [(k, e)] := by simp [putEntity, h]
    have h2 : getEntity (s ++ [(k, e)]) k = some e := getEntity_append_single s k e h
    rw [h1]
    unfold putEntity
    rw [h2, h]
    simp only [List.map_append]
    congr 1
    · calc s.map (fun p => if p.1 = k then (k, e') else p)
          = s.map id := List.map_congr_left fun p hp => by simp [hall p hp]
        _ = s := s.map_id
    · simp
  | some e₀ =>
    have h1 : putEntity s k e = s.map fun p => if p.1 = k then (k, e) else p := by
      simp [putEntity, h]
    have h2 : getEntity (s.map fun p => if p.1 = k then (k, e) else p) k = some e :=
      getEntity_map_replace s k e (by simp [h])
    rw [h1]
    unfold putEntity
    rw [h2, h, List.map_map]
    apply List.map_congr_left
    intro p _
    by_cases hk : p.1 = k <;> simp [hk, Function.comp]

theorem hLookup_map_replace (d : HDict) (f v : String)
    (h : (hLookup d f).isSome) :
    hLookup (d.map fun p => if p.1 = f then (f, v) else p) f = some v := by
  induction d with
  | nil => simp [hLookup] at h
  | cons p t ih =>
    obtain ⟨g, w⟩ := p
    by_cases hg : g = f
    · subst hg
      simp only [List.map_cons, if_pos (show (g, w).1 = g from rfl)]
      simp [hLookup]
    · have h' : (hLookup t f).isSome := by simpa [hLookup, hg] using h
      simp only [List.map_cons, if_neg (show ¬(g, w).1 = f from hg)]
      simpa [hLookup, hg] using ih h'

theorem hLookup_map_replace_other (d : HDict) (f v g : String) (hg : g ≠ f) :
    hLookup (d.map fun p => if p.1 = f then (f, v) else p) g = hLookup d g := by
  induction d with
  | nil => simp
  | cons p t ih =>
    obtain ⟨a, b⟩ := p
    by_cases ha : a = f
    · subst ha
      simp only [List.map_cons, if_pos (show (a, b).1 = a from rfl)]
      have hne : ¬a = g := fun h => hg h.symm
      simp [hLookup, hne, ih]
    · simp only [List.map_cons, if_neg (show ¬(a, b).1 = f from ha)]
      by_cases hag : a = g
      · subst hag; simp [hLookup]
      · simp [hLookup, hag, ih]

theorem hLookup_append (d₁ d₂ : HDict) (f : String) :
    hLookup (d₁ ++ d₂) f =
      match hLookup d₁ f with
      | some v => some v
      | none => hLookup d₂ f := by
  induction d₁ with
  | nil => simp [hLookup]
  | cons p t ih =>
    obtain ⟨g, w⟩ := p
    by_cases hg : g = f
    · subst hg; simp [hLookup]
    · simpa [hLookup, hg] using ih

theorem hLookup_hPut_self (d : HDict) (f v : String) :
    hLookup (hPut d f v).1 f = some v := by
  unfold hPut
  cases h : hLookup d f with
  | some w => exact hLookup_map_replace d f v (by simp [h])
  | none =>
    simp only
    rw [hLookup_append]
    simp [h, hLookup]

theorem hLookup_hPut_other (d : HDict) (f v g : String) (hg : g ≠ f) :
    hLookup (hPut d f v).1 g = hLookup d g := by
  unfold hPut
  cases h : hLookup d f with
  | some w => exact hLookup_map_replace_other d f v g hg
  | none =>
    simp only
    rw [hLookup_append]
    cases hd : hLookup d g with
    | some u => simp
    | none => simp [hLookup, Ne.symm hg]

theorem hPut_ne_nil (d : HDict) (f v : String) : (hPut d f v).1 ≠ [] := by
  unfold hPut
  cases h : hLookup d f with
  | some w =>
    simp only [ne_eq, List.map_eq_nil_iff]
    intro hnil
    subst hnil
    simp [hLookup] at h
  | none => simp

theorem hLookup_hRemove_self (d : HDict) (f : String) :
    hLookup (hRemove d f).1 f = none := by
  unfold hRemove
  simp only [ne_eq, decide_not]
  induction d with
  | nil => simp [hLookup]
  | cons p t ih =>
    obtain ⟨g, w⟩ := p
    by_cases hg : g = f
    · rw [List.filter_cons_of_neg (by simp [hg])]
      exact ih
    · rw [List.filter_cons_of_pos (by simp [hg])]
      simpa [hLookup, hg] using ih

theorem hLookup_hRemove_other (d : HDict) (f g : String) (hg : g ≠ f) :
    hLookup (hRemove d f).1 g = hLookup d g := by
  unfold hRemove
  simp only [ne_eq, decide_not]
  induction d with
  | nil => simp
  | cons p t ih =>
    obtain ⟨a, b⟩ := p
    by_cases ha : a = f
    · rw [List.filter_cons_of_neg (by simp [ha])]
      have hne : ¬a = g := fun h => hg (h ▸ ha)
      simp [hLookup, hne, ih]
    · rw [List.filter_cons_of_pos (by simp [ha])]
      by_cases hag : a = g
      · subst hag; simp [hLookup]
      · simp [hLookup, hag, ih]

theorem execHSet_wrongType (s : DBState) (k f v tag : String) (x : List String)
    (hk : getEntity s k = some (.other tag)) :
    execHSet s (k :: f :: v :: x) = ⟨.wrongTypeErr, s, []⟩ := by
  simp [execHSet, getOrInitDict, getAsDict, hk]

theorem execHSetNX_wrongType (s : DBState) (k f v tag : String) (x : List String)
    (hk : getEntity s k = some (.other tag)) :
    execHSetNX s (k :: f :: v :: x) = ⟨.wrongTypeErr, s, []⟩ := by
  simp [execHSetNX, getOrInitDict, getAsDict, hk]

theorem execHDel_wrongType (s : DBState) (k tag : String) (fs : List String)
    (hk : getEntity s k = some (.other tag)) :
    execHDel s (k :: fs) = ⟨.wrongTypeErr, s, []⟩ := by
  simp [execHDel, getAsDict, hk]

theorem execHMSet_state_wrongType (s : DBState) (k tag : String) (rest : List String)
    (hk : getEntity s k = some (.other tag)) :
    (execHMSet s (k :: rest)).state = s := by
  unfold execHMSet
  by_cases hp : (1 + rest.length) % 2 ≠ 1
  · simp [hp]
  · simp [hp, getOrInitDict, getAsDict, hk]

theorem execHIncrBy_state_wrongType (s : DBState) (k f delta tag : String) (x : List String)
    (hk : getEntity s k = some (.other tag)) :
    (execHIncrBy s (k :: f :: delta :: x)).state = s := by
  unfold execHIncrBy
  cases hd : goParseInt delta with
  | none => simp [hd]
  | some dv => simp [hd, getOrInitDict, getAsDict, hk]

theorem execHIncrByFloat_state_wrongType (s : DBState) (k f delta tag : String) (x : List String)
    (hk : getEntity s k = some (.other tag)) :
    (execHIncrByFloat s (k :: f :: delta :: x)).state = s := by
  unfold execHIncrByFloat
  cases hd : parseDec delta with
  | none => simp [hd]
  | some dv => simp [hd, getOrInitDict, getAsDict, hk]

/-- C1.  Type safety: on a key holding a non-hash entity, every hash
operation (invoked with well-formed arguments, so that the argument checks
that precede keyspace access pass) returns the WrongType error reply, leaves
the keyspace unchanged, and records nothing to the durability sink. -/
theorem hash_wrongtype_safety
    (s : DBState) (choice : Nat → Nat)
    (k tag f v f2 v2 delta fdelta cnt : String) (dv cv : Int) (fv : Dec)
    (hk : getEntity s k = some (.other tag))
    (hd : goParseInt delta = some dv)
    (hf : parseDec fdelta = some fv)
    (hc : goParseInt cnt = some cv) :
    execHSet s [k, f, v] = ⟨.wrongTypeErr, s, []⟩ ∧
    execHSetNX s [k, f, v] = ⟨.wrongTypeErr, s, []⟩ ∧
    execHGet s [k, f] = ⟨.wrongTypeErr, s, []⟩ ∧
    execHExists s [k, f] = ⟨.wrongTypeErr, s, []⟩ ∧
    execHDel s [k, f] = ⟨.wrongTypeErr, s, []⟩ ∧
    execHLen s [k] = ⟨.wrongTypeErr, s, []⟩ ∧
    execHStrLen s [k, f] = ⟨.wrongTypeErr, s, []⟩ ∧
    execHMSet s [k, f, v, f2, v2] = ⟨.wrongTypeErr, s, []⟩ ∧
    execHMGet s [k, f] = ⟨.wrongTypeErr, s, []⟩ ∧
    execHKeys s [k] = ⟨.wrongTypeErr, s, []⟩ ∧
    execHVals s [k] = ⟨.wrongTypeErr, s, []⟩ ∧
    execHGetAll s [k] = ⟨.wrongTypeErr, s, []⟩ ∧
    execHIncrBy s [k, f, delta] = ⟨.wrongTypeErr, s, []⟩ ∧
    execHIncrByFloat s [k, f, fdelta] = ⟨.wrongTypeErr, s, []⟩ ∧
    execHRandField choice s [k, cnt] = ⟨.wrongTypeErr, s, []⟩ := by
  refine ⟨execHSet_wrongType s k f v tag [] hk,
          execHSetNX_wrongType s k f v tag [] hk,
          ?_, ?_,
          execHDel_wrongType s k tag [f] hk,
          ?_, ?_, ?_, ?_, ?_, ?_, ?_, ?_, ?_, ?_⟩
  · simp [execHGet, getAsDict, hk]
  · simp [execHExists, getAsDict, hk]
  · simp [execHLen, getAsDict, hk]
  · simp [execHStrLen, getAsDict, hk]
  · simp [execHMSet, getOrInitDict, getAsDict, hk]
  · simp [execHMGet, getAsDict, hk]
  · simp [execHKeys, getAsDict, hk]
  · simp [execHVals, getAsDict, hk]
  · simp [execHGetAll, getAsDict, hk]
  · simp [execHIncrBy, getOrInitDict, getAsDict, hk, hd]
  · simp [execHIncrByFloat, getOrInitDict, getAsDict, hk, hf]
  · simp [execHRandField, getAsDict, hk, hc]

/-- Witness for C1 at a concrete keyspace holding a non-hash entity. -/
theorem hash_wrongtype_safety_witness :
    execHSet [("k", Entity.other "str")] ["k", "f", "v"] =
      ⟨.wrongTypeErr, [("k", Entity.other "str")], []⟩ ∧
    execHRandField (fun j => j) [("k", Entity.other "str")] ["k", "2"] =
      ⟨.wrongTypeErr, [("k", Entity.other "str")], []⟩ := by
  have h := hash_wrongtype_safety [("k", Entity.other "str")] (fun j => j)
    "k" "str" "f" "v" "f2" "v2" "5" "1.5" "2" 5 2 ⟨15, 1⟩ rfl rfl rfl rfl
  exact ⟨h.1, h.2.2.2.2.2.2.2.2.2.2.2.2.2.2⟩

/-- C7.  Scenario 1: HSET on an absent key creates the hash and reports a
created field (1); a second HSET of the same field reports an update (0);
HGET then returns the second value. -/
theorem hset_create_update_get (s : DBState) (k f v v2 : String)
    (hk : getEntity s k = none) :
    (execHSet s [k, f, v]).reply = .int 1 ∧
    (execHSet (execHSet s [k, f, v]).state [k, f, v2]).reply = .int 0 ∧
    (execHGet (execHSet (execHSet s [k, f, v]).state [k, f, v2]).state [k, f]).reply = .bulk v2 := by
  have h1 : execHSet s [k, f, v] =
      ⟨.int 1, putEntity (putEntity s k (.hash [])) k (.hash [(f, v)]), [["hset", k, f, v]]⟩ := by
    simp [execHSet, getOrInitDict, getAsDict, hk, hPut, hLookup, toCmdLine3]
  have hk1 : getEntity (putEntity (putEntity s k (.hash [])) k (.hash [(f, v)])) k =
      some (.hash [(f, v)]) := getEntity_putEntity_self _ k _
  have h2 : execHSet (execHSet s [k, f, v]).state [k, f, v2] =
      ⟨.int 0, putEntity (putEntity (putEntity s k (.hash [])) k (.hash [(f, v)])) k (.hash [(f, v2)]),
       [["hset", k, f, v2]]⟩ := by
    rw [h1]
    simp [execHSet, getOrInitDict, getAsDict, hk1, hPut, hLookup, toCmdLine3]
  have hk2 : getEntity (putEntity (putEntity (putEntity s k (.hash [])) k (.hash [(f, v)])) k
      (.hash [(f, v2)])) k = some (.hash [(f, v2)]) := getEntity_putEntity_self _ k _
  refine ⟨by rw [h1], by rw [h2], ?_⟩
  rw [h2]
  simp [execHGet, getAsDict, hk2, hLookup]

/-- Witness for C7 starting from the empty keyspace. -/
theorem hset_create_update_get_witness :
    (execHSet [] ["k", "f", "v"]).reply = .int 1 ∧
    (execHSet (execHSet [] ["k", "f", "v"]).state ["k", "f", "v2"]).reply = .int 0 ∧
    (execHGet (execHSet (execHSet [] ["k", "f", "v"]).state ["k", "f", "v2"]).state ["k", "f"]).reply =
      .bulk "v2" :=
  hset_create_update_get [] "k" "f" "v" "v2" rfl

/-- C8.  HSETNX on an existing field replies 0 and leaves the stored value
unchanged; on an absent field it replies 1 and stores the value. -/
theorem hsetnx_semantics (s : DBState) (k f v w : String) :
    (fieldValue s k f = some w →
      (execHSetNX s [k, f, v]).reply = .int 0 ∧
      fieldValue (execHSetNX s [k, f, v]).state k f = some w) ∧
    (hashOrAbsent s k = true → fieldValue s k f = none →
      (execHSetNX s [k, f, v]).reply = .int 1 ∧
      fieldValue (execHSetNX s [k, f, v]).state k f = some v) := by
  constructor
  · intro hw
    cases hge : getEntity s k with
    | none => simp [fieldValue, hge] at hw
    | some e =>
      cases e with
      | other tag => simp [fieldValue, hge] at hw
      | hash d =>
        have hlk : hLookup d f = some w := by simpa [fieldValue, hge] using hw
        simp [execHSetNX, getOrInitDict, getAsDict, hge, hPutIfAbsent, hlk, fieldValue,
          getEntity_putEntity_self]
  · intro ha hn
    cases hge : getEntity s k with
    | none =>
      simp [execHSetNX, getOrInitDict, getAsDict, hge, hPutIfAbsent, hLookup, fieldValue,
        getEntity_putEntity_self]
    | some e =>
      cases e with
      | other tag => simp [hashOrAbsent, hge] at ha
      | hash d =>
        have hlk : hLookup d f = none := by simpa [fieldValue, hge] using hn
        have happ : hLookup (d ++ [(f, v)]) f = some v := by
          rw [hLookup_append]
          simp [hlk, hLookup]
        simp [execHSetNX, getOrInitDict, getAsDict, hge, hPutIfAbsent, hlk, fieldValue,
          getEntity_putEntity_self, happ]

/-- Witness for C8: both branches at concrete inputs. -/
theorem hsetnx_semantics_witness :
    ((execHSetNX [("k", Entity.hash [("f", "w")])] ["k", "f", "v"]).reply = .int 0 ∧
      fieldValue (execHSetNX [("k", Entity.hash [("f", "w")])] ["k", "f", "v"]).state "k" "f" =
        some "w") ∧
    ((execHSetNX [("k", Entity.hash [("g", "u")])] ["k", "f", "v"]).reply = .int 1 ∧
      fieldValue (execHSetNX [("k", Entity.hash [("g", "u")])] ["k", "f", "v"]).state "k" "f" =
        some "v") :=
  ⟨(hsetnx_semantics [("k", Entity.hash [("f", "w")])] "k" "f" "v" "w").1 (by decide),
   (hsetnx_semantics [("k", Entity.hash [("g", "u")])] "k" "f" "v" "w").2 (by decide) (by decide)⟩

/-- C5.  HINCRBY by 5 on an absent field stores the byte string 5 and
replies with it; on a field holding a non-integer value it returns the
NotANumber error and mutates nothing. -/
theorem hincrby_scenarios (s : DBState) (k f : String) :
    (hashOrAbsent s k = true → fieldValue s k f = none →
      (execHIncrBy s [k, f, "5"]).reply = .bulk "5" ∧
      fieldValue (execHIncrBy s [k, f, "5"]).state k f = some "5") ∧
    (fieldValue s k f = some "abc" →
      (execHIncrBy s [k, f, "5"]).reply = .err hashNotIntMsg ∧
      (execHIncrBy s [k, f, "5"]).state = s) := by
  have h5 : goParseInt "5" = some 5 := by decide
  have habc : goParseInt "abc" = none := by decide
  constructor
  · intro ha hn
    cases hge : getEntity s k with
    | none =>
      simp [execHIncrBy, h5, getOrInitDict, getAsDict, hge, hPut, hLookup, fieldValue,
        getEntity_putEntity_self]
    | some e =>
      cases e with
      | other tag => simp [hashOrAbsent, hge] at ha
      | hash d =>
        have hlk : hLookup d f = none := by simpa [fieldValue, hge] using hn
        have happ : hLookup (d ++ [(f, "5")]) f = some "5" := by
          rw [hLookup_append]
          simp [hlk, hLookup]
        simp [execHIncrBy, h5, getOrInitDict, getAsDict, hge, hPut, hlk, fieldValue,
          getEntity_putEntity_self, happ]
  · intro hw
    cases hge : getEntity s k with
    | none => simp [fieldValue, hge] at hw
    | some e =>
      cases e with
      | other tag => simp [fieldValue, hge] at hw
      | hash d =>
        have hlk : hLookup d f = some "abc" := by simpa [fieldValue, hge] using hw
        simp [execHIncrBy, h5, habc, getOrInitDict, getAsDict, hge, hlk]

/-- Witness for C5: both branches at concrete inputs. -/
theorem hincrby_scenarios_witness :
    ((execHIncrBy [] ["k", "f", "5"]).reply = .bulk "5" ∧
      fieldValue (execHIncrBy [] ["k", "f", "5"]).state "k" "f" = some "5") ∧
    ((execHIncrBy [("k", Entity.hash [("f", "abc")])] ["k", "f", "5"]).reply =
        .err hashNotIntMsg ∧
      (execHIncrBy [("k", Entity.hash [("f", "abc")])] ["k", "f", "5"]).state =
        [("k", Entity.hash [("f", "abc")])]) :=
  ⟨(hincrby_scenarios [] "k" "f").1 (by decide) (by decide),
   (hincrby_scenarios [("k", Entity.hash [("f", "abc")])] "k" "f").2 (by decide)⟩

/-- C9.  HDEL of two fields removes each one that is present, replies with
the count actually removed (at most 2), and when the removals empty the
container the key disappears and a subsequent HLEN replies 0. -/
theorem hdel_count_and_cleanup (s : DBState) (k f1 f2 : String) (d : HDict)
    (hk : getEntity s k = some (.hash d)) :
    (execHDel s [k, f1, f2]).reply =
      .int (((if (hLookup d f1).isSome then 1 else 0) +
             (if f2 ≠ f1 ∧ (hLookup d f2).isSome then 1 else 0) : Nat) : Int) ∧
    ((if (hLookup d f1).isSome then 1 else 0) +
       (if f2 ≠ f1 ∧ (hLookup d f2).isSome then 1 else 0) : Nat) ≤ 2 ∧
    fieldValue (execHDel s [k, f1, f2]).state k f1 = none ∧
    fieldValue (execHDel s [k, f1, f2]).state k f2 = none ∧
    ((∀ p ∈ d, p.1 = f1 ∨ p.1 = f2) →
      getEntity (execHDel s [k, f1, f2]).state k = none ∧
      (execHLen (execHDel s [k, f1, f2]).state [k]).reply = .int 0) := by
  have hc1 : (hRemove d f1).2 = if (hLookup d f1).isSome then 1 else 0 := by
    unfold hRemove
    cases h : hLookup d f1 <;> simp [h]
  have hc2 : (hRemove (hRemove d f1).1 f2).2 =
      if f2 ≠ f1 ∧ (hLookup d f2).isSome then 1 else 0 := by
    by_cases h12 : f2 = f1
    · subst h12
      have := hLookup_hRemove_self d f2
      conv_lhs => rw [hRemove]
      simp [this]
    · have hother := hLookup_hRemove_other d f1 f2 h12
      conv_lhs => rw [hRemove]
      rw [hother]
      cases h : hLookup d f2 <;> simp [h, h12]
  have hra : removeAll d [f1, f2] =
      ((hRemove (hRemove d f1).1 f2).1,
       (hRemove d f1).2 + (hRemove (hRemove d f1).1 f2).2) := by
    simp [removeAll]
  have hstate : (execHDel s [k, f1, f2]).state =
      (if hLen (hRemove (hRemove d f1).1 f2).1 = 0 then removeKey s k
       else putEntity s k (.hash (hRemove (hRemove d f1).1 f2).1)) := by
    unfold execHDel
    simp only [getAsDict, hk, hra]
    by_cases hz : (hRemove d f1).2 + (hRemove (hRemove d f1).1 f2).2 > 0 <;> simp [hz]
  have hreply : (execHDel s [k, f1, f2]).reply =
      .int (((hRemove d f1).2 + (hRemove (hRemove d f1).1 f2).2 : Nat) : Int) := by
    unfold execHDel
    simp only [getAsDict, hk, hra]
    by_cases hz : (hRemove d f1).2 + (hRemove (hRemove d f1).1 f2).2 > 0 <;> simp [hz]
  have hlf1 : hLookup (hRemove (hRemove d f1).1 f2).1 f1 = none := by
    by_cases h12 : f1 = f2
    · subst h12; exact hLookup_hRemove_self _ f1
    · rw [hLookup_hRemove_other _ f2 f1 h12]
      exact hLookup_hRemove_self d f1
  have hlf2 : hLookup (hRemove (hRemove d f1).1 f2).1 f2 = none :=
    hLookup_hRemove_self _ f2
  refine ⟨?_, ?_, ?_, ?_, ?_⟩
  · rw [hreply, hc1, hc2]
  · split <;> split <;> omega
  · rw [hstate]
    split
    · simp [fieldValue, getEntity_removeKey_self]
    · simp [fieldValue, getEntity_putEntity_self, hlf1]
  · rw [hstate]
    split
    · simp [fieldValue, getEntity_removeKey_self]
    · simp [fieldValue, getEntity_putEntity_self, hlf2]
  · intro hall
    have hnil : (hRemove (hRemove d f1).1 f2).1 = [] := by
      unfold hRemove
      simp only
      rw [List.filter_eq_nil_iff]
      intro p hp
      rw [List.mem_filter] at hp
      obtain ⟨hpd, hp1⟩ := hp
      simp only [decide_eq_true_eq] at hp1
      rcases hall p hpd with h | h
      · exact absurd h hp1
      · simp [h]
    have hz : hLen (hRemove (hRemove d f1).1 f2).1 = 0 := by
      rw [hnil]; rfl
    rw [hstate, if_pos hz]
    refine ⟨getEntity_removeKey_self s k, ?_⟩
    simp [execHLen, getAsDict, getEntity_removeKey_self]

/-- Witness for C9: removing both fields of a two-field hash empties it and
removes the key. -/
theorem hdel_count_and_cleanup_witness :
    (execHDel [("k", Entity.hash [("f1", "a"), ("f2", "b")])] ["k", "f1", "f2"]).reply =
      .int ((1 + 1 : Nat) : Int) ∧
    (1 + 1 : Nat) ≤ 2 ∧
    fieldValue (execHDel [("k", Entity.hash [("f1", "a"), ("f2", "b")])] ["k", "f1", "f2"]).state
      "k" "f1" = none ∧
    fieldValue (execHDel [("k", Entity.hash [("f1", "a"), ("f2", "b")])] ["k", "f1", "f2"]).state
      "k" "f2" = none ∧
    getEntity (execHDel [("k", Entity.hash [("f1", "a"), ("f2", "b")])] ["k", "f1", "f2"]).state
      "k" = none ∧
    (execHLen (execHDel [("k", Entity.hash [("f1", "a"), ("f2", "b")])] ["k", "f1", "f2"]).state
      ["k"]).reply = .int 0 := by
  have h := hdel_count_and_cleanup [("k", Entity.hash [("f1", "a"), ("f2", "b")])]
    "k" "f1" "f2" [("f1", "a"), ("f2", "b")] rfl
  have hempty := h.2.2.2.2 (by decide)
  have hr : ((if (hLookup [("f1", "a"), ("f2", "b")] "f1").isSome then 1 else 0) +
      (if "f2" ≠ "f1" ∧ (hLookup [("f1", "a"), ("f2", "b")] "f2").isSome then 1 else 0) : Nat) =
      (1 + 1 : Nat) := by decide
  exact ⟨by rw [h.1, hr], by omega, h.2.2.1, h.2.2.2.1, hempty.1, hempty.2⟩

theorem aof_execHSet (s : DBState) (args : List String) :
    aofDiscipline true (execHSet s args) = true := by
  unfold execHSet
  split
  · split <;> rfl
  · rfl

theorem aof_execHSetNX (s : DBState) (args : List String) :
    aofDiscipline true (execHSetNX s args) = true := by
  unfold execHSetNX
  split
  · split
    · rfl
    · dsimp only
      split <;> rfl
  · rfl

theorem aof_execHDel (s : DBState) (args : List String) :
    aofDiscipline true (execHDel s args) = true := by
  unfold execHDel
  split
  · split
    · rfl
    · rfl
    · dsimp only
      split <;> rfl
  · rfl

theorem aof_execHMSet (s : DBState) (args : List String) :
    aofDiscipline true (execHMSet s args) = true := by
  unfold execHMSet
  split
  · split
    · rfl
    · split <;> rfl
  · rfl

theorem aof_execHIncrBy (s : DBState) (args : List String) :
    aofDiscipline true (execHIncrBy s args) = true := by
  unfold execHIncrBy
  split
  · split
    · rfl
    · split
      · rfl
      · split
        · rfl
        · split <;> rfl
  · rfl

theorem aof_execHIncrByFloat (s : DBState) (args : List String) :
    aofDiscipline true (execHIncrByFloat s args) = true := by
  unfold execHIncrByFloat
  split
  · split
    · rfl
    · split
      · rfl
      · split
        · rfl
        · split <;> rfl
  · rfl

theorem aof_execHGet (s : DBState) (args : List String) : (execHGet s args).aof = [] := by
  unfold execHGet
  repeat' split
  all_goals rfl

theorem aof_execHExists (s : DBState) (args : List String) : (execHExists s args).aof = [] := by
  unfold execHExists
  repeat' split
  all_goals rfl

theorem aof_execHLen (s : DBState) (args : List String) : (execHLen s args).aof = [] := by
  unfold execHLen
  repeat' split
  all_goals rfl

theorem aof_execHStrLen (s : DBState) (args : List String) : (execHStrLen s args).aof = [] := by
  unfold execHStrLen
  repeat' split
  all_goals rfl

theorem aof_execHMGet (s : DBState) (args : List String) : (execHMGet s args).aof = [] := by
  unfold execHMGet
  repeat' split
  all_goals rfl

theorem aof_execHKeys (s : DBState) (args : List String) : (execHKeys s args).aof = [] := by
  unfold execHKeys
  repeat' split
  all_goals rfl

theorem aof_execHVals (s : DBState) (args : List String) : (execHVals s args).aof = [] := by
  unfold execHVals
  repeat' split
  all_goals rfl

theorem aof_execHGetAll (s : DBState) (args : List String) : (execHGetAll s args).aof = [] := by
  unfold execHGetAll
  repeat' split
  all_goals rfl

theorem aof_execHRandField (choice : Nat → Nat) (s : DBState) (args : List String) :
    (execHRandField choice s args).aof = [] := by
  unfold execHRandField
  repeat' split
  all_goals try dsimp only
  all_goals repeat' split
  all_goals rfl

theorem aofDiscipline_of_aof_nil (wr : Bool) (r : ExecResult) (h : r.aof = []) :
    aofDiscipline wr r = true := by
  unfold aofDiscipline
  rw [h]

/-- C3 counterexample.  HSETNX on an existing field is a registered write
command whose executor returns the success reply 0, yet it hands no CmdLine
to the durability sink — refuting the claimed "exactly one iff write and
success". -/
theorem hash_aof_not_iff_success :
    isWrite .hsetnx = true ∧
    (runCmd .hsetnx (fun j => j) [("k", Entity.hash [("f", "v")])] ["k", "f", "w"]).reply =
      .int 0 ∧
    isError (.int 0) = false ∧
    (runCmd .hsetnx (fun j => j) [("k", Entity.hash [("f", "v")])] ["k", "f", "w"]).aof = [] := by
  refine ⟨rfl, ?_, rfl, ?_⟩ <;> decide

/-- C3 (amended).  Every hash command execution hands at most one canonical
CmdLine to the durability sink, and only when the command is registered as a
write command and its executor returns a success (non-error) reply; in
particular read-only commands are never recorded. -/
theorem hash_aof_discipline (c : HCmd) (choice : Nat → Nat) (s : DBState)
    (args : List String) :
    aofDiscipline (isWrite c) (runCmd c choice s args) = true := by
  cases c with
  | hset => exact aof_execHSet s args
  | hsetnx => exact aof_execHSetNX s args
  | hget => exact aofDiscipline_of_aof_nil _ _ (aof_execHGet s args)
  | hexists => exact aofDiscipline_of_aof_nil _ _ (aof_execHExists s args)
  | hdel => exact aof_execHDel s args
  | hlen => exact aofDiscipline_of_aof_nil _ _ (aof_execHLen s args)
  | hstrlen => exact aofDiscipline_of_aof_nil _ _ (aof_execHStrLen s args)
  | hmset => exact aof_execHMSet s args
  | hmget => exact aofDiscipline_of_aof_nil _ _ (aof_execHMGet s args)
  | hkeys => exact aofDiscipline_of_aof_nil _ _ (aof_execHKeys s args)
  | hvals => exact aofDiscipline_of_aof_nil _ _ (aof_execHVals s args)
  | hgetall => exact aofDiscipline_of_aof_nil _ _ (aof_execHGetAll s args)
  | hincrby => exact aof_execHIncrBy s args
  | hincrbyfloat => exact aof_execHIncrByFloat s args
  | hrandfield => exact aofDiscipline_of_aof_nil _ _ (aof_execHRandField choice s args)

/-- C10.  HRANDFIELD is registered with arity -2, so dispatch accepts any
invocation with at least one executor argument; yet with more than three
executor arguments the executor itself replies a wrong-number-of-arguments
error without touching the keyspace, and with exactly three arguments any
third argument other than a case-insensitive WITHVALUES draws a syntax
error, likewise before any keyspace access. -/
theorem hrandfield_arg_validation (choice : Nat → Nat) (s : DBState)
    (k a b c : String) (rest : List String) :
    cmdArity .hrandfield = -2 ∧
    arityCheck (cmdArity .hrandfield) (1 + (k :: a :: b :: c :: rest).length) = true ∧
    execHRandField choice s (k :: a :: b :: c :: rest) = ⟨.err wrongNumHRandMsg, s, []⟩ ∧
    (goToLower b ≠ "withvalues" → execHRandField choice s [k, a, b] = ⟨.synErr, s, []⟩) := by
  refine ⟨rfl, ?_, ?_, ?_⟩
  · simp [arityCheck, cmdArity]
    omega
  · unfold execHRandField
    have hgt : 1 + (a :: b :: c :: rest).length > 3 := by
      simp only [List.length_cons]
      omega
    dsimp only
    rw [if_pos hgt]
  · intro hb
    unfold execHRandField
    simp [hb]

/-- Witness for C10 at a concrete malformed invocation. -/
theorem hrandfield_arg_validation_witness :
    cmdArity .hrandfield = -2 ∧
    arityCheck (cmdArity .hrandfield) (1 + (["k", "1", "x", "y"] : List String).length) = true ∧
    execHRandField (fun j => j) [] ["k", "1", "x", "y"] = ⟨.err wrongNumHRandMsg, [], []⟩ ∧
    execHRandField (fun j => j) [] ["k", "1", "bogus"] = ⟨.synErr, [], []⟩ := by
  have h := hrandfield_arg_validation (fun j => j) [] "k" "1" "x" "y" []
  have h2 := (hrandfield_arg_validation (fun j => j) [] "k" "1" "bogus" "y" []).2.2.2
    (by decide)
  exact ⟨h.1, h.2.1, h.2.2.1, h2⟩

theorem noEmptyHash_mem (s : DBState) (p : String × Entity)
    (hs : noEmptyHash s = true) (hp : p ∈ s) :
    (match p.2 with
     | .hash d => !d.isEmpty
     | .other _ => true) = true := by
  rw [noEmptyHash, List.all_eq_true] at hs
  exact hs p hp

theorem noEmptyHash_putEntity (s : DBState) (k : String) (d : HDict)
    (hs : noEmptyHash s = true) (hd : d ≠ []) :
    noEmptyHash (putEntity s k (.hash d)) = true := by
  unfold putEntity
  cases h : getEntity s k with
  | some e =>
    rw [noEmptyHash, List.all_eq_true]
    intro p hp
    obtain ⟨q, hq, rfl⟩ := List.mem_map.mp hp
    by_cases hqk : q.1 = k
    · rw [if_pos hqk]
      simpa using hd
    · rw [if_neg hqk]
      exact noEmptyHash_mem s q hs hq
  | none =>
    rw [noEmptyHash, List.all_append]
    rw [noEmptyHash] at hs
    rw [hs]
    simpa using hd

theorem noEmptyHash_removeKey (s : DBState) (k : String)
    (hs : noEmptyHash s = true) :
    noEmptyHash (removeKey s k) = true := by
  rw [noEmptyHash, List.all_eq_true]
  intro p hp
  exact noEmptyHash_mem s p hs (List.mem_filter.mp hp).1

theorem hPutIfAbsent_ne_nil (d : HDict) (f v : String) : (hPutIfAbsent d f v).1 ≠ [] := by
  unfold hPutIfAbsent
  cases h : hLookup d f with
  | some w =>
    simp only [ne_eq]
    intro hnil
    subst hnil
    simp [hLookup] at h
  | none => simp

theorem foldl_hPut_ne_nil (ps : List (String × String)) (d : HDict)
    (h : ps ≠ [] ∨ d ≠ []) :
    ps.foldl (fun acc p => (hPut acc p.1 p.2).1) d ≠ [] := by
  induction ps generalizing d with
  | nil =>
    rcases h with h | h
    · exact absurd rfl h
    · simpa using h
  | cons p ps ih =>
    rw [List.foldl_cons]
    exact ih (hPut d p.1 p.2).1 (Or.inr (hPut_ne_nil d p.1 p.2))

theorem toPairs_ne_nil (rest : List String) (h : 2 ≤ rest.length) : toPairs rest ≠ [] := by
  match rest with
  | [] => simp at h
  | [a] => simp at h
  | a :: b :: t => simp [toPairs]

theorem state_execHGet (s : DBState) (args : List String) : (execHGet s args).state = s := by
  unfold execHGet
  repeat' split
  all_goals rfl

theorem state_execHExists (s : DBState) (args : List String) :
    (execHExists s args).state = s := by
  unfold execHExists
  repeat' split
  all_goals rfl

theorem state_execHLen (s : DBState) (args : List String) : (execHLen s args).state = s := by
  unfold execHLen
  repeat' split
  all_goals rfl

theorem state_execHStrLen (s : DBState) (args : List String) :
    (execHStrLen s args).state = s := by
  unfold execHStrLen
  repeat' split
  all_goals rfl

theorem state_execHMGet (s : DBState) (args : List String) : (execHMGet s args).state = s := by
  unfold execHMGet
  repeat' split
  all_goals rfl

theorem state_execHKeys (s : DBState) (args : List String) : (execHKeys s args).state = s := by
  unfold execHKeys
  repeat' split
  all_goals rfl

theorem state_execHVals (s : DBState) (args : List String) : (execHVals s args).state = s := by
  unfold execHVals
  repeat' split
  all_goals rfl

theorem state_execHGetAll (s : DBState) (args : List String) :
    (execHGetAll s args).state = s := by
  unfold execHGetAll
  repeat' split
  all_goals rfl

theorem state_execHRandField (choice : Nat → Nat) (s : DBState) (args : List String) :
    (execHRandField choice s args).state = s := by
  unfold execHRandField
  repeat' split
  all_goals try dsimp only
  all_goals repeat' split
  all_goals rfl

theorem noEmpty_execHSet (s : DBState) (args : List String)
    (hs : noEmptyHash s = true) :
    noEmptyHash (execHSet s args).state = true := by
  unfold execHSet
  split
  · rename_i key field value tail
    cases hge : getEntity s key with
    | none =>
      simp only [getOrInitDict, getAsDict, hge]
      try dsimp only
      rw [putEntity_putEntity]
      exact noEmptyHash_putEntity s key _ hs (hPut_ne_nil _ _ _)
    | some e =>
      cases e with
      | hash d =>
        simp only [getOrInitDict, getAsDict, hge]
        try dsimp only
        exact noEmptyHash_putEntity s key _ hs (hPut_ne_nil _ _ _)
      | other tag =>
        simp only [getOrInitDict, getAsDict, hge]
        exact hs
  · exact hs

theorem noEmpty_execHSetNX (s : DBState) (args : List String)
    (hs : noEmptyHash s = true) :
    noEmptyHash (execHSetNX s args).state = true := by
  unfold execHSetNX
  split
  · rename_i key field value tail
    cases hge : getEntity s key with
    | none =>
      simp only [getOrInitDict, getAsDict, hge]
      try dsimp only
      split <;>
        · rw [putEntity_putEntity]
          exact noEmptyHash_putEntity s key _ hs (hPutIfAbsent_ne_nil _ _ _)
    | some e =>
      cases e with
      | hash d =>
        simp only [getOrInitDict, getAsDict, hge]
        try dsimp only
        split <;> exact noEmptyHash_putEntity s key _ hs (hPutIfAbsent_ne_nil _ _ _)
      | other tag =>
        simp only [getOrInitDict, getAsDict, hge]
        exact hs
  · exact hs

theorem noEmpty_execHDel (s : DBState) (args : List String)
    (hs : noEmptyHash s = true) :
    noEmptyHash (execHDel s args).state = true := by
  unfold execHDel
  split
  · rename_i key fieldArgs
    split
    · exact hs
    · exact hs
    · dsimp only
      split <;>
        · split
          · rename_i hz
            exact noEmptyHash_removeKey s key hs
          · rename_i hz
            refine noEmptyHash_putEntity s key _ hs ?_
            intro hnil
            exact hz (by rw [hnil]; rfl)
  · exact hs

theorem noEmpty_execHMSet (s : DBState) (args : List String)
    (hlen : 3 ≤ args.length) (hs : noEmptyHash s = true) :
    noEmptyHash (execHMSet s args).state = true := by
  unfold execHMSet
  split
  · rename_i key rest
    have hrest : 2 ≤ rest.length := by
      simp only [List.length_cons] at hlen
      omega
    split
    · exact hs
    · cases hge : getEntity s key with
      | none =>
        simp only [getOrInitDict, getAsDict, hge]
        try dsimp only
        rw [putEntity_putEntity]
        exact noEmptyHash_putEntity s key _ hs
          (foldl_hPut_ne_nil _ _ (Or.inl (toPairs_ne_nil rest hrest)))
      | some e =>
        cases e with
        | hash d =>
          simp only [getOrInitDict, getAsDict, hge]
          try dsimp only
          exact noEmptyHash_putEntity s key _ hs
            (foldl_hPut_ne_nil _ _ (Or.inl (toPairs_ne_nil rest hrest)))
        | other tag =>
          simp only [getOrInitDict, getAsDict, hge]
          exact hs
  · exact hs

theorem noEmpty_execHIncrBy (s : DBState) (args : List String)
    (hs : noEmptyHash s = true) :
    noEmptyHash (execHIncrBy s args).state = true := by
  unfold execHIncrBy
  split
  · rename_i key field rawDelta tail
    split
    · exact hs
    · cases hge : getEntity s key with
      | none =>
        simp only [getOrInitDict, getAsDict, hge]
        try dsimp only
        rw [show hLookup ([] : HDict) field = none from rfl]
        try dsimp only
        rw [putEntity_putEntity]
        exact noEmptyHash_putEntity s key _ hs (hPut_ne_nil _ _ _)
      | some e =>
        cases e with
        | hash d =>
          simp only [getOrInitDict, getAsDict, hge]
          try dsimp only
          split
          · exact noEmptyHash_putEntity s key _ hs (hPut_ne_nil _ _ _)
          · split
            · exact hs
            · exact noEmptyHash_putEntity s key _ hs (hPut_ne_nil _ _ _)
        | other tag =>
          simp only [getOrInitDict, getAsDict, hge]
          exact hs
  · exact hs

theorem noEmpty_execHIncrByFloat (s : DBState) (args : List String)
    (hs : noEmptyHash s = true) :
    noEmptyHash (execHIncrByFloat s args).state = true := by
  unfold execHIncrByFloat
  split
  · rename_i key field rawDelta tail
    split
    · exact hs
    · cases hge : getEntity s key with
      | none =>
        simp only [getOrInitDict, getAsDict, hge]
        try dsimp only
        rw [show hLookup ([] : HDict) field = none from rfl]
        try dsimp only
        rw [putEntity_putEntity]
        exact noEmptyHash_putEntity s key _ hs (hPut_ne_nil _ _ _)
      | some e =>
        cases e with
        | hash d =>
          simp only [getOrInitDict, getAsDict, hge]
          try dsimp only
          split
          · exact noEmptyHash_putEntity s key _ hs (hPut_ne_nil _ _ _)
          · split
            · exact hs
            · exact noEmptyHash_putEntity s key _ hs (hPut_ne_nil _ _ _)
        | other tag =>
          simp only [getOrInitDict, getAsDict, hge]
          exact hs
  · exact hs

/-- C4.  Invariant preservation: a keyspace in which no key holds an empty
hash container stays that way under every hash command whose argument count
passes the registered arity check — in particular HDEL removes the key in
the same operation whenever it empties the container. -/
theorem hash_no_empty_container (c : HCmd) (choice : Nat → Nat) (s : DBState)
    (args : List String)
    (har : arityCheck (cmdArity c) (1 + args.length) = true)
    (hs : noEmptyHash s = true) :
    noEmptyHash (runCmd c choice s args).state = true := by
  cases c with
  | hset => exact noEmpty_execHSet s args hs
  | hsetnx => exact noEmpty_execHSetNX s args hs
  | hget => rw [runCmd, state_execHGet]; exact hs
  | hexists => rw [runCmd, state_execHExists]; exact hs
  | hdel => exact noEmpty_execHDel s args hs
  | hlen => rw [runCmd, state_execHLen]; exact hs
  | hstrlen => rw [runCmd, state_execHStrLen]; exact hs
  | hmset =>
    refine noEmpty_execHMSet s args ?_ hs
    simp [arityCheck, cmdArity] at har
    omega
  | hmget => rw [runCmd, state_execHMGet]; exact hs
  | hkeys => rw [runCmd, state_execHKeys]; exact hs
  | hvals => rw [runCmd, state_execHVals]; exact hs
  | hgetall => rw [runCmd, state_execHGetAll]; exact hs
  | hincrby => exact noEmpty_execHIncrBy s args hs
  | hincrbyfloat => exact noEmpty_execHIncrByFloat s args hs
  | hrandfield => rw [runCmd, state_execHRandField]; exact hs

/-- Witness for C4: HDEL that empties a one-field hash leaves a keyspace
with no empty container (the key is gone). -/
theorem hash_no_empty_container_witness :
    noEmptyHash (runCmd .hdel (fun j => j) [("k", Entity.hash [("f", "v")])]
      ["k", "f"]).state = true :=
  hash_no_empty_container .hdel (fun j => j) [("k", Entity.hash [("f", "v")])]
    ["k", "f"] (by decide) (by decide)

theorem pickDistinct_length (choice : Nat → Nat) (n : Nat) (l : List String) :
    (pickDistinct choice n l).length = min n l.length := by
  induction n generalizing l with
  | zero => simp [pickDistinct]
  | succ n ih =>
    cases l with
    | nil => simp [pickDistinct]
    | cons k ks =>
      have hlt : choice (n + 1) % (ks.length + 1) < (k :: ks).length :=
        Nat.mod_lt _ (Nat.succ_pos ks.length)
      rw [pickDistinct]
      simp only [List.length_cons, ih]
      rw [List.length_eraseIdx_of_lt hlt]
      simp only [List.length_cons]
      omega

theorem pickDistinct_subset (choice : Nat → Nat) (n : Nat) (l : List String) :
    ∀ g ∈ pickDistinct choice n l, g ∈ l := by
  induction n generalizing l with
  | zero => simp [pickDistinct]
  | succ n ih =>
    cases l with
    | nil => simp [pickDistinct]
    | cons k ks =>
      intro g hg
      rw [pickDistinct] at hg
      rcases List.mem_cons.mp hg with h | h
      · rw [h]; exact List.get_mem _ _ _
      · exact List.mem_of_mem_eraseIdx (ih _ g h)

theorem get_not_mem_eraseIdx (l : List String) (hl : l.Nodup) (i : Fin l.length) :
    l.get i ∉ l.eraseIdx i.1 := by
  intro hmem
  rw [List.mem_eraseIdx_iff_get] at hmem
  obtain ⟨j, hji, hget⟩ := hmem
  exact hji (congrArg Fin.val ((List.Nodup.get_inj_iff hl).mp hget))

theorem pickDistinct_nodup (choice : Nat → Nat) (n : Nat) (l : List String)
    (hl : l.Nodup) : (pickDistinct choice n l).Nodup := by
  induction n generalizing l with
  | zero => simp [pickDistinct]
  | succ n ih =>
    cases l with
    | nil => simp [pickDistinct]
    | cons k ks =>
      rw [pickDistinct]
      rw [List.nodup_cons]
      constructor
      · intro hmem
        exact get_not_mem_eraseIdx (k :: ks) hl _ (pickDistinct_subset choice n _ _ hmem)
      · exact ih _ ((List.eraseIdx_sublist (k :: ks) _).nodup hl)

theorem randomKeys_length (choice : Nat → Nat) (ks : List String) (n : Nat)
    (h : ks ≠ []) : (randomKeys choice ks n).length = n := by
  cases ks with
  | nil => exact absurd rfl h
  | cons k t => simp [randomKeys]

theorem randomKeys_subset (choice : Nat → Nat) (ks : List String) (n : Nat) :
    ∀ g ∈ randomKeys choice ks n, g ∈ ks := by
  cases ks with
  | nil => simp [randomKeys]
  | cons k t =>
    intro g hg
    simp only [randomKeys, List.mem_map, List.mem_range] at hg
    obtain ⟨j, _, hget⟩ := hg
    rw [← hget]
    exact List.get_mem _ _ _

/-- C6.  HRANDFIELD sampling contract: on a stored hash (which, by the
empty-container invariant, is nonempty), a positive count returns min(count,
size) distinct field names of the container; a negative count returns exactly
the absolute count of field names drawn from the container (repetition
allowed); an absent key yields the empty multi-bulk reply. -/
theorem hrandfield_sampling (choice : Nat → Nat) (s : DBState) (k cstr : String)
    (n : Int) (d : HDict) :
    (getEntity s k = some (.hash d) → goParseInt cstr = some n → (hKeys d).Nodup →
      ((0 < n → ∃ fl : List String,
          (execHRandField choice s [k, cstr]).reply = .multiBulk (fl.map some) ∧
          fl.length = min n.toNat (hLen d) ∧ fl.Nodup ∧ ∀ g ∈ fl, g ∈ hKeys d) ∧
       (n < 0 → d ≠ [] → ∃ fl : List String,
          (execHRandField choice s [k, cstr]).reply = .multiBulk (fl.map some) ∧
          fl.length = n.natAbs ∧ ∀ g ∈ fl, g ∈ hKeys d))) ∧
    (getEntity s k = none → goParseInt cstr = some n →
      (execHRandField choice s [k, cstr]).reply = .emptyMultiBulk) := by
  constructor
  · intro hge hcnt hnd
    have hexec : execHRandField choice s [k, cstr] =
        (if 0 < n then
          ⟨.multiBulk ((randomDistinctKeys choice (hKeys d) n.toNat).map some), s, []⟩
         else if n < 0 then
          ⟨.multiBulk ((randomKeys choice (hKeys d) (-n).toNat).map some), s, []⟩
         else ⟨.emptyMultiBulk, s, []⟩) := by
      unfold execHRandField
      simp [getAsDict, hge, hcnt]
    constructor
    · intro hpos
      refine ⟨randomDistinctKeys choice (hKeys d) n.toNat, ?_, ?_, ?_, ?_⟩
      · rw [hexec, if_pos hpos]
      · rw [randomDistinctKeys, pickDistinct_length]
        unfold hLen hKeys
        rw [List.length_map]
      · exact pickDistinct_nodup choice n.toNat (hKeys d) hnd
      · exact pickDistinct_subset choice n.toNat (hKeys d)
    · intro hneg hdne
      have hkne : hKeys d ≠ [] := by
        intro hnil
        exact hdne (by simpa [hKeys] using hnil)
      refine ⟨randomKeys choice (hKeys d) (-n).toNat, ?_, ?_, ?_⟩
      · rw [hexec, if_neg (by omega), if_pos hneg]
      · rw [randomKeys_length choice (hKeys d) _ hkne]
        omega
      · exact randomKeys_subset choice (hKeys d) (-n).toNat
  · intro hge hcnt
    unfold execHRandField
    simp [getAsDict, hge, hcnt]

/-- Witness for C6: a two-field hash sampled with counts -5 and 5. -/
theorem hrandfield_sampling_witness :
    (∃ fl : List String,
      (execHRandField (fun j => j) [("k", Entity.hash [("f1", "a"), ("f2", "b")])]
        ["k", "-5"]).reply = .multiBulk (fl.map some) ∧
      fl.length = (-5 : Int).natAbs ∧
      ∀ g ∈ fl, g ∈ hKeys [("f1", "a"), ("f2", "b")]) ∧
    (∃ fl : List String,
      (execHRandField (fun j => j) [("k", Entity.hash [("f1", "a"), ("f2", "b")])]
        ["k", "5"]).reply = .multiBulk (fl.map some) ∧
      fl.length = min (5 : Int).toNat (hLen [("f1", "a"), ("f2", "b")]) ∧ fl.Nodup ∧
      ∀ g ∈ fl, g ∈ hKeys [("f1", "a"), ("f2", "b")]) :=
  ⟨((hrandfield_sampling (fun j => j) [("k", Entity.hash [("f1", "a"), ("f2", "b")])]
      "k" "-5" (-5) [("f1", "a"), ("f2", "b")]).1 rfl (by decide) (by decide)).2
      (by decide) (by decide),
   ((hrandfield_sampling (fun j => j) [("k", Entity.hash [("f1", "a"), ("f2", "b")])]
      "k" "5" 5 [("f1", "a"), ("f2", "b")]).1 rfl (by decide) (by decide)).1 (by decide)⟩

theorem replayAll_nil (t : DBState) : replayAll [] t = t := rfl

theorem replayAll_cons (c : CmdLine) (cs : List CmdLine) (t : DBState) :
    replayAll (c :: cs) t = replayCmd (replayAll cs t) c := rfl

theorem hashOrAbsent_putEntity_hash (s : DBState) (k : String) (d : HDict) :
    hashOrAbsent (putEntity s k (.hash d)) k = true := by
  rw [hashOrAbsent, getEntity_putEntity_self]

theorem hashOrAbsent_removeKey (s : DBState) (k : String) :
    hashOrAbsent (removeKey s k) k = true := by
  rw [hashOrAbsent, getEntity_removeKey_self]

theorem hoa_execHSet (s : DBState) (k f v : String) (x : List String)
    (hs : hashOrAbsent s k = true) :
    hashOrAbsent (execHSet s (k :: f :: v :: x)).state k = true := by
  unfold execHSet
  cases hge : getEntity s k with
  | none =>
    simp only [getOrInitDict, getAsDict, hge]
    try dsimp only
    exact hashOrAbsent_putEntity_hash _ k _
  | some e =>
    cases e with
    | hash d =>
      simp only [getOrInitDict, getAsDict, hge]
      try dsimp only
      exact hashOrAbsent_putEntity_hash _ k _
    | other tag =>
      simp only [getOrInitDict, getAsDict, hge]
      exact hs

theorem hoa_execHSetNX (s : DBState) (k f v : String) (x : List String)
    (hs : hashOrAbsent s k = true) :
    hashOrAbsent (execHSetNX s (k :: f :: v :: x)).state k = true := by
  unfold execHSetNX
  cases hge : getEntity s k with
  | none =>
    simp only [getOrInitDict, getAsDict, hge]
    try dsimp only
    split <;> exact hashOrAbsent_putEntity_hash _ k _
  | some e =>
    cases e with
    | hash d =>
      simp only [getOrInitDict, getAsDict, hge]
      try dsimp only
      split <;> exact hashOrAbsent_putEntity_hash _ k _
    | other tag =>
      simp only [getOrInitDict, getAsDict, hge]
      exact hs

theorem hoa_execHDel (s : DBState) (k : String) (fs : List String)
    (hs : hashOrAbsent s k = true) :
    hashOrAbsent (execHDel s (k :: fs)).state k = true := by
  unfold execHDel
  cases hge : getEntity s k with
  | none =>
    simp only [getAsDict, hge]
    exact hs
  | some e =>
    cases e with
    | hash d =>
      simp only [getAsDict, hge]
      try dsimp only
      split <;>
        · split
          · exact hashOrAbsent_removeKey s k
          · exact hashOrAbsent_putEntity_hash s k _
    | other tag =>
      simp only [getAsDict, hge]
      exact hs

theorem hoa_execHMSet (s : DBState) (k : String) (rest : List String)
    (hs : hashOrAbsent s k = true) :
    hashOrAbsent (execHMSet s (k :: rest)).state k = true := by
  unfold execHMSet
  try dsimp only
  split
  · exact hs
  · cases hge : getEntity s k with
    | none =>
      simp only [getOrInitDict, getAsDict, hge]
      try dsimp only
      exact hashOrAbsent_putEntity_hash _ k _
    | some e =>
      cases e with
      | hash d =>
        simp only [getOrInitDict, getAsDict, hge]
        try dsimp only
        exact hashOrAbsent_putEntity_hash _ k _
      | other tag =>
        simp only [getOrInitDict, getAsDict, hge]
        exact hs

theorem hoa_execHIncrBy (s : DBState) (k f delta : String) (x : List String)
    (hs : hashOrAbsent s k = true) :
    hashOrAbsent (execHIncrBy s (k :: f :: delta :: x)).state k = true := by
  unfold execHIncrBy
  try dsimp only
  split
  · exact hs
  · cases hge : getEntity s k with
    | none =>
      simp only [getOrInitDict, getAsDict, hge]
      try dsimp only
      rw [show hLookup ([] : HDict) f = none from rfl]
      try dsimp only
      exact hashOrAbsent_putEntity_hash _ k _
    | some e =>
      cases e with
      | hash d =>
        simp only [getOrInitDict, getAsDict, hge]
        try dsimp only
        split
        · exact hashOrAbsent_putEntity_hash _ k _
        · split
          · exact hs
          · exact hashOrAbsent_putEntity_hash _ k _
      | other tag =>
        simp only [getOrInitDict, getAsDict, hge]
        exact hs

theorem hoa_execHIncrByFloat (s : DBState) (k f delta : String) (x : List String)
    (hs : hashOrAbsent s k = true) :
    hashOrAbsent (execHIncrByFloat s (k :: f :: delta :: x)).state k = true := by
  unfold execHIncrByFloat
  try dsimp only
  split
  · exact hs
  · cases hge : getEntity s k with
    | none =>
      simp only [getOrInitDict, getAsDict, hge]
      try dsimp only
      rw [show hLookup ([] : HDict) f = none from rfl]
      try dsimp only
      exact hashOrAbsent_putEntity_hash _ k _
    | some e =>
      cases e with
      | hash d =>
        simp only [getOrInitDict, getAsDict, hge]
        try dsimp only
        split
        · exact hashOrAbsent_putEntity_hash _ k _
        · split
          · exact hs
          · exact hashOrAbsent_putEntity_hash _ k _
      | other tag =>
        simp only [getOrInitDict, getAsDict, hge]
        exact hs

theorem fv_hset_self (t : DBState) (k g v : String)
    (ht : hashOrAbsent t k = true) :
    fieldValue (execHSet t [k, g, v]).state k g = some v := by
  unfold execHSet
  cases hge : getEntity t k with
  | none =>
    simp only [getOrInitDict, getAsDict, hge]
    try dsimp only
    simp [fieldValue, getEntity_putEntity_self, hLookup_hPut_self]
  | some e =>
    cases e with
    | hash d =>
      simp only [getOrInitDict, getAsDict, hge]
      try dsimp only
      simp [fieldValue, getEntity_putEntity_self, hLookup_hPut_self]
    | other tag => simp [hashOrAbsent, hge] at ht

theorem fv_hset_other (t : DBState) (k g g' v : String) (hne : g ≠ g') :
    fieldValue (execHSet t [k, g', v]).state k g = fieldValue t k g := by
  unfold execHSet
  cases hge : getEntity t k with
  | none =>
    simp only [getOrInitDict, getAsDict, hge]
    try dsimp only
    simp [fieldValue, getEntity_putEntity_self, hLookup_hPut_other _ _ _ _ hne, hge, hLookup,
      Ne.symm hne]
  | some e =>
    cases e with
    | hash d =>
      simp only [getOrInitDict, getAsDict, hge]
      try dsimp only
      simp [fieldValue, getEntity_putEntity_self, hLookup_hPut_other _ _ _ _ hne, hge]
    | other tag =>
      simp only [getOrInitDict, getAsDict, hge]

theorem fv_hdel_self (t : DBState) (k g : String) :
    fieldValue (execHDel t [k, g]).state k g = none := by
  unfold execHDel
  cases hge : getEntity t k with
  | none => simp [getAsDict, fieldValue, hge]
  | some e =>
    cases e with
    | hash d =>
      simp only [getAsDict, hge]
      try dsimp only
      have hra : removeAll d [g] = ((hRemove d g).1, 0 + (hRemove d g).2) := by
        simp [removeAll]
      rw [hra]
      try dsimp only
      split <;>
        · split
          · simp [fieldValue, getEntity_removeKey_self]
          · simp [fieldValue, getEntity_putEntity_self, hLookup_hRemove_self]
    | other tag => simp [getAsDict, fieldValue, hge]

theorem fv_hdel_other (t : DBState) (k g g' : String) (hne : g ≠ g') :
    fieldValue (execHDel t [k, g']).state k g = fieldValue t k g := by
  unfold execHDel
  cases hge : getEntity t k with
  | none => simp only [getAsDict, hge]
  | some e =>
    cases e with
    | hash d =>
      simp only [getAsDict, hge]
      try dsimp only
      have hra : removeAll d [g'] = ((hRemove d g').1, 0 + (hRemove d g').2) := by
        simp [removeAll]
      rw [hra]
      try dsimp only
      split <;>
        · split
          · rename_i hz
            have hnil : (hRemove d g').1 = [] := by
              have := hz
              unfold hLen at this
              exact List.length_eq_zero.mp this
            have : hLookup d g = none := by
              rw [← hLookup_hRemove_other d g' g hne, hnil]
              rfl
            simp [fieldValue, getEntity_removeKey_self, hge, this]
          · simp [fieldValue, getEntity_putEntity_self, hge,
              hLookup_hRemove_other d g' g hne]
    | other tag => simp only [getAsDict, hge]

theorem replayCmd_rollEntry (s t : DBState) (k g : String) :
    replayCmd t (rollEntry s k g) =
      (match fieldValue s k g with
       | some v => (execHSet t [k, g, v]).state
       | none => (execHDel t [k, g]).state) := by
  unfold rollEntry
  cases fieldValue s k g <;> rfl

theorem hoa_replayCmd_rollEntry (s t : DBState) (k g : String)
    (ht : hashOrAbsent t k = true) :
    hashOrAbsent (replayCmd t (rollEntry s k g)) k = true := by
  rw [replayCmd_rollEntry]
  cases fieldValue s k g with
  | none => exact hoa_execHDel t k [g] ht
  | some v => exact hoa_execHSet t k g v [] ht

theorem hoa_replayAll_rollEntry (s : DBState) (k : String) (gs : List String)
    (t : DBState) (ht : hashOrAbsent t k = true) :
    hashOrAbsent (replayAll (gs.map (rollEntry s k)) t) k = true := by
  induction gs with
  | nil => exact ht
  | cons g gs ih =>
    rw [List.map_cons, replayAll_cons]
    exact hoa_replayCmd_rollEntry s _ k g ih

theorem replay_core (s : DBState) (k : String) (gs : List String) (t : DBState)
    (ht : hashOrAbsent t k = true) :
    ∀ g ∈ gs, fieldValue (replayAll (gs.map (rollEntry s k)) t) k g = fieldValue s k g := by
  induction gs with
  | nil => simp
  | cons g₀ gs ih =>
    intro g hg
    rw [List.map_cons, replayAll_cons, replayCmd_rollEntry]
    have ht' : hashOrAbsent (replayAll (gs.map (rollEntry s k)) t) k = true :=
      hoa_replayAll_rollEntry s k gs t ht
    by_cases hgg : g = g₀
    · subst hgg
      cases hfv : fieldValue s k g with
      | some v => rw [fv_hset_self _ k g v ht']
      | none => rw [fv_hdel_self _ k g]
    · have hgs : g ∈ gs := by
        rcases List.mem_cons.mp hg with h | h
        · exact absurd h hgg
        · exact h
      cases hfv : fieldValue s k g₀ with
      | some v => rw [fv_hset_other _ k g g₀ v hgg]; exact ih g hgs
      | none => rw [fv_hdel_other _ k g g₀ hgg]; exact ih g hgs

theorem rollback_eq_map (s : DBState) (k : String) (gs : List String)
    (hs : hashOrAbsent s k = true) :
    rollbackHashFields s k gs = gs.map (rollEntry s k) := by
  unfold rollbackHashFields
  cases hge : getEntity s k with
  | none =>
    simp only [getAsDict, hge]
    apply List.map_congr_left
    intro g _
    simp [rollEntry, fieldValue, hge]
  | some e =>
    cases e with
    | hash d =>
      simp only [getAsDict, hge]
      apply List.map_congr_left
      intro g _
      cases h : hLookup d g <;> simp [rollEntry, fieldValue, hge, h]
    | other tag => simp [hashOrAbsent, hge] at hs

theorem rollback_replay_restores (s : DBState) (k : String) (gs : List String)
    (t : DBState) (hs : hashOrAbsent s k = true) (ht : hashOrAbsent t k = true) :
    ∀ g ∈ gs, fieldValue (replayAll (rollbackHashFields s k gs) t) k g = fieldValue s k g := by
  rw [rollback_eq_map s k gs hs]
  exact replay_core s k gs t ht

theorem rollback_wrongType (s : DBState) (k tag : String) (gs : List String)
    (hk : getEntity s k = some (.other tag)) :
    rollbackHashFields s k gs = [] := by
  simp [rollbackHashFields, getAsDict, hk]

theorem exists_other_of_not_hoa (s : DBState) (k : String)
    (h : ¬hashOrAbsent s k = true) :
    ∃ tag, getEntity s k = some (.other tag) := by
  unfold hashOrAbsent at h
  cases hge : getEntity s k with
  | none => rw [hge] at h; simp at h
  | some e =>
    cases e with
    | hash d => rw [hge] at h; simp at h
    | other tag => exact ⟨tag, rfl⟩

theorem undoRestores_hset (s : DBState) (k f v : String) (x : List String) :
    fieldValue (replayAll (undoHSet s (k :: f :: v :: x))
      (execHSet s (k :: f :: v :: x)).state) k f = fieldValue s k f := by
  by_cases hs : hashOrAbsent s k = true
  · have ht := hoa_execHSet s k f v x hs
    simpa [undoHSet] using
      rollback_replay_restores s k [f] _ hs ht f (by simp)
  · obtain ⟨tag, hk⟩ := exists_other_of_not_hoa s k hs
    rw [show undoHSet s (k :: f :: v :: x) = rollbackHashFields s k [f] from rfl,
      rollback_wrongType s k tag [f] hk, execHSet_wrongType s k f v tag x hk]
    rfl

theorem undoRestores_hsetnx (s : DBState) (k f v : String) (x : List String) :
    fieldValue (replayAll (undoHSet s (k :: f :: v :: x))
      (execHSetNX s (k :: f :: v :: x)).state) k f = fieldValue s k f := by
  by_cases hs : hashOrAbsent s k = true
  · have ht := hoa_execHSetNX s k f v x hs
    simpa [undoHSet] using
      rollback_replay_restores s k [f] _ hs ht f (by simp)
  · obtain ⟨tag, hk⟩ := exists_other_of_not_hoa s k hs
    rw [show undoHSet s (k :: f :: v :: x) = rollbackHashFields s k [f] from rfl,
      rollback_wrongType s k tag [f] hk, execHSetNX_wrongType s k f v tag x hk]
    rfl

theorem undoRestores_hdel (s : DBState) (k : String) (fs : List String) :
    ∀ g ∈ fs,
      fieldValue (replayAll (undoHDel s (k :: fs)) (execHDel s (k :: fs)).state) k g =
        fieldValue s k g := by
  intro g hg
  by_cases hs : hashOrAbsent s k = true
  · have ht := hoa_execHDel s k fs hs
    simpa [undoHDel] using
      rollback_replay_restores s k fs _ hs ht g hg
  · obtain ⟨tag, hk⟩ := exists_other_of_not_hoa s k hs
    rw [show undoHDel s (k :: fs) = rollbackHashFields s k fs from rfl,
      rollback_wrongType s k tag fs hk, execHDel_wrongType s k tag fs hk]
    rfl

theorem undoRestores_hmset (s : DBState) (k : String) (rest : List String) :
    ∀ g ∈ (toPairs rest).map Prod.fst,
      fieldValue (replayAll (undoHMSet s (k :: rest)) (execHMSet s (k :: rest)).state) k g =
        fieldValue s k g := by
  intro g hg
  by_cases hs : hashOrAbsent s k = true
  · have ht := hoa_execHMSet s k rest hs
    simpa [undoHMSet] using
      rollback_replay_restores s k ((toPairs rest).map Prod.fst) _ hs ht g hg
  · obtain ⟨tag, hk⟩ := exists_other_of_not_hoa s k hs
    rw [show undoHMSet s (k :: rest) =
        rollbackHashFields s k ((toPairs rest).map Prod.fst) from rfl,
      rollback_wrongType s k tag _ hk, execHMSet_state_wrongType s k tag rest hk]
    rfl

theorem undoRestores_hincrby (s : DBState) (k f delta : String) (x : List String) :
    fieldValue (replayAll (undoHIncr s (k :: f :: delta :: x))
      (execHIncrBy s (k :: f :: delta :: x)).state) k f = fieldValue s k f := by
  by_cases hs : hashOrAbsent s k = true
  · have ht := hoa_execHIncrBy s k f delta x hs
    simpa [undoHIncr] using
      rollback_replay_restores s k [f] _ hs ht f (by simp)
  · obtain ⟨tag, hk⟩ := exists_other_of_not_hoa s k hs
    rw [show undoHIncr s (k :: f :: delta :: x) = rollbackHashFields s k [f] from rfl,
      rollback_wrongType s k tag [f] hk, execHIncrBy_state_wrongType s k f delta tag x hk]
    rfl

theorem undoRestores_hincrbyfloat (s : DBState) (k f delta : String) (x : List String) :
    fieldValue (replayAll (undoHIncr s (k :: f :: delta :: x))
      (execHIncrByFloat s (k :: f :: delta :: x)).state) k f = fieldValue s k f := by
  by_cases hs : hashOrAbsent s k = true
  · have ht := hoa_execHIncrByFloat s k f delta x hs
    simpa [undoHIncr] using
      rollback_replay_restores s k [f] _ hs ht f (by simp)
  · obtain ⟨tag, hk⟩ := exists_other_of_not_hoa s k hs
    rw [show undoHIncr s (k :: f :: delta :: x) = rollbackHashFields s k [f] from rfl,
      rollback_wrongType s k tag [f] hk, execHIncrByFloat_state_wrongType s k f delta tag x hk]
    rfl

/-- C2.  Undo coverage: for each hash write command with an undo generator,
the undo command lines computed against the pre-state snapshot every field
named in the command (absent fields included), and replaying them after the
executor has run restores every named field to its prior value or to
absence. -/
theorem hash_undo_restores_named_fields :
    (∀ (s : DBState) (k f v : String) (x : List String),
      fieldValue (replayAll (undoHSet s (k :: f :: v :: x))
        (execHSet s (k :: f :: v :: x)).state) k f = fieldValue s k f) ∧
    (∀ (s : DBState) (k f v : String) (x : List String),
      fieldValue (replayAll (undoHSet s (k :: f :: v :: x))
        (execHSetNX s (k :: f :: v :: x)).state) k f = fieldValue s k f) ∧
    (∀ (s : DBState) (k : String) (fs : List String), ∀ g ∈ fs,
      fieldValue (replayAll (undoHDel s (k :: fs))
        (execHDel s (k :: fs)).state) k g = fieldValue s k g) ∧
    (∀ (s : DBState) (k : String) (rest : List String),
      ∀ g ∈ (toPairs rest).map Prod.fst,
      fieldValue (replayAll (undoHMSet s (k :: rest))
        (execHMSet s (k :: rest)).state) k g = fieldValue s k g) ∧
    (∀ (s : DBState) (k f delta : String) (x : List String),
      fieldValue (replayAll (undoHIncr s (k :: f :: delta :: x))
        (execHIncrBy s (k :: f :: delta :: x)).state) k f = fieldValue s k f) ∧
    (∀ (s : DBState) (k f delta : String) (x : List String),
      fieldValue (replayAll (undoHIncr s (k :: f :: delta :: x))
        (execHIncrByFloat s (k :: f :: delta :: x)).state) k f = fieldValue s k f) :=
  ⟨undoRestores_hset, undoRestores_hsetnx, undoRestores_hdel, undoRestores_hmset,
   undoRestores_hincrby, undoRestores_hincrbyfloat⟩

/-- Witness for C2: HMSET overwriting one existing and one fresh field, then
replaying its undo, restores both named fields (value back, fresh field
gone). -/
theorem hash_undo_restores_named_fields_witness :
    (fieldValue (replayAll (undoHMSet [("k", Entity.hash [("f1", "old")])]
        ["k", "f1", "new", "f2", "x"])
      (execHMSet [("k", Entity.hash [("f1", "old")])]
        ["k", "f1", "new", "f2", "x"]).state) "k" "f1" =
      fieldValue [("k", Entity.hash [("f1", "old")])] "k" "f1") ∧
    (fieldValue (replayAll (undoHMSet [("k", Entity.hash [("f1", "old")])]
        ["k", "f1", "new", "f2", "x"])
      (execHMSet [("k", Entity.hash [("f1", "old")])]
        ["k", "f1", "new", "f2", "x"]).state) "k" "f2" =
      fieldValue [("k", Entity.hash [("f1", "old")])] "k" "f2") :=
  ⟨hash_undo_restores_named_fields.2.2.2.1 [("k", Entity.hash [("f1", "old")])] "k"
      ["f1", "new", "f2", "x"] "f1" (by decide),
   hash_undo_restores_named_fields.2.2.2.1 [("k", Entity.hash [("f1", "old")])] "k"
      ["f1", "new", "f2", "x"] "f2" (by decide)⟩
